import Mathlib

/-!
Verification development for the GalaxyOS BookMarkCore bot (`src/main.py`).

The program is embedded shallowly: Python strings become `List Char`,
Python dicts become association lists with dict semantics (first-key
lookup, in-place replace / append-on-new-key for assignment), the JSON
library (`json.loads`, `json.dumps`) and `ast.literal_eval` are modeled
as executable Lean parsers/printers, and the aiogram finite-state
machine is modeled as an explicit session value transformed by the
handler functions.  External collaborators (the GitHub content store,
the Telegram transport, the HuggingFace backends) are modeled as pure
inputs: the store's document is a string parameter, a backend call is
an `Option (List Char)` (`none` = the call raised, `some raw` = it
returned `raw`).
-/

abbrev Str := List Char

/-- Python whitespace for `str.strip` / `\s` (ASCII part: space, \t, \n, \r, \x0b, \x0c). -/
def isPyWs (c : Char) : Bool :=
  c = ' ' || c = '\t' || c = '\n' || c = '\x0d' || c = '\x0b' || c = '\x0c'

/-- `str.lstrip()` (whitespace form). -/
def pyLStrip (s : Str) : Str := s.dropWhile isPyWs

/-- `str.rstrip()` (whitespace form). -/
def pyRStrip (s : Str) : Str := (s.reverse.dropWhile isPyWs).reverse

/-- `str.strip()` (whitespace form). -/
def pyStrip (s : Str) : Str := pyRStrip (pyLStrip s)

/-- `str.rstrip(chars)`: drop trailing characters satisfying `p`. -/
def pyRStripSet (p : Char → Bool) (s : Str) : Str :=
  (s.reverse.dropWhile p).reverse

/-- Python substring test `needle in haystack`. -/
def containsSub (needle : Str) : Str → Bool
  | [] => needle.isEmpty
  | c :: rest => needle.isPrefixOf (c :: rest) || containsSub needle rest

/-- Python `str.find`: index of the first occurrence, `none` for `-1`. -/
def findSub (needle : Str) : Str → Option Nat
  | [] => if needle.isEmpty then some 0 else none
  | c :: rest =>
    if needle.isPrefixOf (c :: rest) then some 0
    else (findSub needle rest).map (· + 1)

/-- Python `str.rfind` for a single character: index of the last occurrence. -/
def rfindChar (c : Char) (s : Str) : Option Nat :=
  match findSub [c] s.reverse with
  | none => none
  | some i => some (s.length - 1 - i)

/-- Python slice `s[a:b]` (for `0 ≤ a ≤ b` views; empty when `b ≤ a`). -/
def pySlice (a b : Nat) (s : Str) : Str := (s.drop a).take (b - a)

/-- Python `str.lower()` (ASCII). -/
def pyLower (s : Str) : Str := s.map Char.toLower

/-- Python `str.upper()` (ASCII). -/
def pyUpper (s : Str) : Str := s.map Char.toUpper

/-- Python `str.split(sep)` for a single-character separator. -/
def pySplitChar (sep : Char) (s : Str) : List Str :=
  s.splitOn sep

/-- Worker for `pyReplace`; `fuel` bounds the recursion depth (structural, so
that concrete instances evaluate inside the kernel).  With `fuel ≥ s.length`
this is exactly Python's left-to-right non-overlapping replacement scan. -/
def pyReplaceGo (old new : Str) : Nat → Str → Str
  | 0, s => s
  | _ + 1, [] => []
  | fuel + 1, c :: rest =>
    if old.isPrefixOf (c :: rest) then
      new ++ pyReplaceGo old new fuel (rest.drop (old.length - 1))
    else
      c :: pyReplaceGo old new fuel rest

/-- Python `str.replace(old, new)`.  The empty-pattern branch mirrors Python's
interleaving behavior; the program only uses nonempty patterns. -/
def pyReplace (old new : Str) (s : Str) : Str :=
  if old.isEmpty then new ++ s.flatMap (fun c => c :: new)
  else pyReplaceGo old new s.length s

/-! ## Link Extractor (`extract_url_from_text`, src/main.py lines 62-73)

Models `re.findall(r'(https?://[^\s<>")\]]+|www\.[^\s<>")\]]+)', text)`:
a left-to-right scan collecting non-overlapping leftmost matches; at each
position the `https?://` branch is tried first (with greedy `s?`), then
the `www.` branch, each followed by a maximal nonempty run of characters
outside `\s<>")]`. -/

/-- The character class `[^\s<>")\]]` of the URL regex. -/
def urlChar (c : Char) : Bool :=
  !isPyWs c && c ≠ '<' && c ≠ '>' && c ≠ '"' && c ≠ ')' && c ≠ ']'

def schemeHttps : Str := "https://".toList

def schemeHttp : Str := "http://".toList

def schemeWww : Str := "www.".toList

/-- After a literal scheme of length `n` matched at the front of `s`,
take the maximal nonempty run of URL characters (`[^\s<>")\]]+`). -/
def urlTakeRun (scheme : Str) (n : Nat) (s : Str) : Option (Str × Str) :=
  let run := (s.drop n).takeWhile urlChar
  if run.isEmpty then none
  else some (scheme ++ run, s.drop (n + run.length))

/-- One attempt of the URL regex at the current position: returns the
matched text and the remaining input after the match. -/
def urlMatchAt (s : Str) : Option (Str × Str) :=
  if schemeHttps.isPrefixOf s then urlTakeRun schemeHttps 8 s
  else if schemeHttp.isPrefixOf s then urlTakeRun schemeHttp 7 s
  else if schemeWww.isPrefixOf s then urlTakeRun schemeWww 4 s
  else none

/-- `re.findall` scan for the URL regex (fuel-structural; fuel `s.length`
always suffices since every step consumes at least one character). -/
def findAllUrlsGo : Nat → Str → List Str
  | 0, _ => []
  | _ + 1, [] => []
  | fuel + 1, c :: rest =>
    match urlMatchAt (c :: rest) with
    | some (m, after) => m :: findAllUrlsGo fuel after
    | none => findAllUrlsGo fuel rest

def findAllUrls (s : Str) : List Str := findAllUrlsGo s.length s

/-- Trailing punctuation stripped from each URL candidate (`u.rstrip(').,;]')`). -/
def isTrailPunct (c : Char) : Bool :=
  c = ')' || c = '.' || c = ',' || c = ';' || c = ']'

def litTgShort : Str := "t.me".toList

def litTgLong : Str := "telegram.me".toList

def litAbsent : Str := "MISSING".toList

/-- `extract_url_from_text` (src/main.py lines 62-73). -/
def extract_url_from_text (text : Str) : Str :=
  let urls := findAllUrls text
  let cleanUrls := (urls.map (pyRStripSet isTrailPunct)).filter
    (fun u => !containsSub litTgShort u && !containsSub litTgLong u)
  match cleanUrls with
  | u :: _ => u
  | [] => litAbsent

/-! ## Python-value model

Values flowing through the program are JSON-like Python objects.  Python
dicts are association lists with unique keys: lookup takes the first
match, assignment replaces in place or appends a new key. -/

inductive Json where
  | null : Json
  | bool : Bool → Json
  | num : Int → Json
  | str : Str → Json
  | arr : List Json → Json
  | obj : List (Str × Json) → Json

/-- Dict lookup (`d.get(k)`). -/
def dictGet (kvs : List (Str × Json)) (k : Str) : Option Json :=
  match kvs.find? (fun kv => kv.1 = k) with
  | some kv => some kv.2
  | none => none

/-- Dict assignment (`d[k] = v`): replace in place (keys are unique in a
Python dict), else append. -/
def dictSet : List (Str × Json) → Str → Json → List (Str × Json)
  | [], k, v => [(k, v)]
  | (k0, v0) :: rest, k, v =>
    if k0 = k then (k, v) :: rest else (k0, v0) :: dictSet rest k v

/-- `j.get(k)` on a Json value that is a dict. -/
def jGet (j : Json) (k : Str) : Option Json :=
  match j with
  | Json.obj kvs => dictGet kvs k
  | _ => none

/-- `j.get(k, default)`. -/
def jGetD (j : Json) (k : Str) (d : Json) : Json :=
  match jGet j k with
  | some v => v
  | none => d

def isObj : Json → Bool
  | Json.obj _ => true
  | _ => false

/-- Python truthiness of a value. -/
def truthy : Json → Bool
  | Json.null => false
  | Json.bool b => b
  | Json.num n => n ≠ 0
  | Json.str s => !s.isEmpty
  | Json.arr xs => !xs.isEmpty
  | Json.obj kvs => !kvs.isEmpty

/-! ## Number rendering and Python `str()` -/

def digitChar (n : Nat) : Char := Char.ofNat (48 + n)

/-- Decimal digits of a natural number (fuel-structural; fuel `n + 1` always
suffices since `n / 10 < n` for `n ≥ 10`). -/
def natDigitsGo : Nat → Nat → Str
  | 0, _ => []
  | fuel + 1, n =>
    if n < 10 then [digitChar n]
    else natDigitsGo fuel (n / 10) ++ [digitChar (n % 10)]

def natToDigits (n : Nat) : Str := natDigitsGo (n + 1) n

def intToDigits (i : Int) : Str :=
  if i < 0 then '-' :: natToDigits (-i).toNat else natToDigits i.toNat

def joinSep (sep : Str) : List Str → Str
  | [] => []
  | [x] => x
  | x :: y :: xs => x ++ sep ++ joinSep sep (y :: xs)

mutual
/-- Python `repr` of a value.  Strings are rendered quoted; escaping inside
a repr'd string is not modeled — the program only feeds reprs of
non-string values into membership tests against quote-free tokens, where
the surrounding quotes already decide the test. -/
def pyRepr : Json → Str
  | Json.null => "None".toList
  | Json.bool true => "True".toList
  | Json.bool false => "False".toList
  | Json.num n => intToDigits n
  | Json.str s => '\'' :: s ++ ['\'']
  | Json.arr xs => '[' :: joinSep (", ".toList) (pyReprL xs) ++ [']']
  | Json.obj kvs => '\x7b' :: joinSep (", ".toList) (pyReprKV kvs) ++ ['\x7d']

def pyReprL : List Json → List Str
  | [] => []
  | x :: xs => pyRepr x :: pyReprL xs

def pyReprKV : List (Str × Json) → List Str
  | [] => []
  | (k, v) :: kvs => (('\'' :: k ++ ['\'']) ++ ": ".toList ++ pyRepr v) :: pyReprKV kvs
end

/-- Python `str()` of a value. -/
def pyStr : Json → Str
  | Json.str s => s
  | j => pyRepr j

/-! ## `json.dumps` model (default arguments: `ensure_ascii=True`,
separators `", "` and `": "`).  Fuel-structural over `sizeOf`. -/

def hexChar (n : Nat) : Char := ("0123456789abcdef".toList).getD n '0'

def hex4 (n : Nat) : Str :=
  [hexChar (n / 4096 % 16), hexChar (n / 256 % 16), hexChar (n / 16 % 16), hexChar (n % 16)]

/-- `json.dumps` escaping of one character (BMP model of `ensure_ascii`). -/
def escJsonChar (c : Char) : Str :=
  if c = '"' then ['\\', '"']
  else if c = '\\' then ['\\', '\\']
  else if c = '\n' then ['\\', 'n']
  else if c = '\x0d' then ['\\', 'r']
  else if c = '\t' then ['\\', 't']
  else if c = '\x08' then ['\\', 'b']
  else if c = '\x0c' then ['\\', 'f']
  else if c.toNat < 32 || c.toNat ≥ 128 then '\\' :: 'u' :: hex4 c.toNat
  else [c]

/-- A JSON string literal `"..."` as emitted by `json.dumps`. -/
def jsonStrLit (s : Str) : Str := '"' :: s.flatMap escJsonChar ++ ['"']

mutual
/-- `json.dumps` of a value. -/
def jsonDumps : Json → Str
  | Json.null => "null".toList
  | Json.bool true => "true".toList
  | Json.bool false => "false".toList
  | Json.num n => intToDigits n
  | Json.str s => jsonStrLit s
  | Json.arr xs => '[' :: joinSep (", ".toList) (jsonDumpsL xs) ++ [']']
  | Json.obj kvs => '\x7b' :: joinSep (", ".toList) (jsonDumpsKV kvs) ++ ['\x7d']

def jsonDumpsL : List Json → List Str
  | [] => []
  | x :: xs => jsonDumps x :: jsonDumpsL xs

def jsonDumpsKV : List (Str × Json) → List Str
  | [] => []
  | (k, v) :: kvs => (jsonStrLit k ++ ':' :: ' ' :: jsonDumps v) :: jsonDumpsKV kvs
end

/-! ## `json.loads` / `ast.literal_eval` model

A recursive-descent parser over `List Char`, fuel-structural so concrete
runs reduce in the kernel (`fuel = length + 1` always suffices: every
recursive call consumes at least one character).  The `py` flag switches
between strict JSON (`json.loads`) and Python literal syntax
(`ast.literal_eval`): single-quoted strings and `True/False/None`
keywords.  Modeled subset: objects with string keys, arrays, strings
with the common backslash escapes (`\uXXXX` not modeled), integers
(floats rejected — the classifier contract uses integer fields), with
raw control characters rejected inside strict-JSON strings. -/

def jsonWsChar (c : Char) : Bool :=
  c = ' ' || c = '\t' || c = '\n' || c = '\x0d'

def skipJWs (s : Str) : Str := s.dropWhile jsonWsChar

def isDigitCh (c : Char) : Bool := '0' ≤ c && c ≤ '9'

def escDecode (py : Bool) (e : Char) : Option Char :=
  if e = '"' then some '"'
  else if e = '\\' then some '\\'
  else if e = '/' then some '/'
  else if e = 'n' then some '\n'
  else if e = 't' then some '\t'
  else if e = 'r' then some '\x0d'
  else if e = 'b' then some '\x08'
  else if e = 'f' then some '\x0c'
  else if py && e = '\'' then some '\''
  else none

/-- Parse the rest of a string literal after the opening quote `q`. -/
def parseStrRest (py : Bool) (q : Char) : Str → Option (Str × Str)
  | [] => none
  | c :: rest =>
    if c = q then some ([], rest)
    else if c = '\\' then
      match rest with
      | [] => none
      | e :: rest2 =>
        match escDecode py e with
        | some d => (parseStrRest py q rest2).map (fun p => (d :: p.1, p.2))
        | none => none
    else if !py && c.toNat < 32 then none
    else (parseStrRest py q rest).map (fun p => (c :: p.1, p.2))

def digitsVal (ds : Str) : Nat := ds.foldl (fun a c => a * 10 + (c.toNat - 48)) 0

def parseNatNum (s : Str) : Option (Nat × Str) :=
  let ds := s.takeWhile isDigitCh
  if ds.isEmpty then none
  else
    match s.drop ds.length with
    | '.' :: _ => none
    | 'e' :: _ => none
    | 'E' :: _ => none
    | rest => some (digitsVal ds, rest)

def parseNumber (s : Str) : Option (Json × Str) :=
  match s with
  | '-' :: rest => (parseNatNum rest).map (fun p => (Json.num (-(p.1 : Int)), p.2))
  | _ => (parseNatNum s).map (fun p => (Json.num (p.1 : Int), p.2))

def litTrue : Str := "true".toList

def litFalse : Str := "false".toList

def litNull : Str := "null".toList

def litPyTrue : Str := "True".toList

def litPyFalse : Str := "False".toList

def litPyNone : Str := "None".toList

/-- Python dict building: later duplicate keys overwrite earlier ones in
place (both `json.loads` and a dict literal behave this way). -/
def buildDict (ps : List (Str × Json)) : List (Str × Json) :=
  ps.foldl (fun d kv => dictSet d kv.1 kv.2) []

mutual
def parseVal (py : Bool) : Nat → Str → Option (Json × Str)
  | 0, _ => none
  | fuel + 1, s =>
    match skipJWs s with
    | [] => none
    | c :: rest =>
      if c = '\x7b' then
        match skipJWs rest with
        | '\x7d' :: r2 => some (Json.obj [], r2)
        | r => parseMembers py fuel r []
      else if c = '[' then
        match skipJWs rest with
        | ']' :: r2 => some (Json.arr [], r2)
        | r =>
          match parseVal py fuel r with
          | some (v, r2) => parseElems py fuel (skipJWs r2) [v]
          | none => none
      else if c = '"' then
        match parseStrRest py '"' rest with
        | some (cs, r2) => some (Json.str cs, r2)
        | none => none
      else if py && c = '\'' then
        match parseStrRest py '\'' rest with
        | some (cs, r2) => some (Json.str cs, r2)
        | none => none
      else if py then
        if litPyTrue.isPrefixOf (c :: rest) then some (Json.bool true, (c :: rest).drop 4)
        else if litPyFalse.isPrefixOf (c :: rest) then some (Json.bool false, (c :: rest).drop 5)
        else if litPyNone.isPrefixOf (c :: rest) then some (Json.null, (c :: rest).drop 4)
        else parseNumber (c :: rest)
      else
        if litTrue.isPrefixOf (c :: rest) then some (Json.bool true, (c :: rest).drop 4)
        else if litFalse.isPrefixOf (c :: rest) then some (Json.bool false, (c :: rest).drop 5)
        else if litNull.isPrefixOf (c :: rest) then some (Json.null, (c :: rest).drop 4)
        else parseNumber (c :: rest)

/-- Object members, entered at a key; input already ws-skipped. -/
def parseMembers (py : Bool) : Nat → Str → List (Str × Json) → Option (Json × Str)
  | 0, _, _ => none
  | fuel + 1, s, acc =>
    match s with
    | c :: rest =>
      if c = '"' || (py && c = '\'') then
        match parseStrRest py c rest with
        | none => none
        | some (k, r1) =>
          match skipJWs r1 with
          | ':' :: r3 =>
            match parseVal py fuel r3 with
            | none => none
            | some (v, r4) =>
              match skipJWs r4 with
              | ',' :: r6 => parseMembers py fuel (skipJWs r6) (acc ++ [(k, v)])
              | '\x7d' :: r6 => some (Json.obj (buildDict (acc ++ [(k, v)])), r6)
              | _ => none
          | _ => none
      else none
    | [] => none

/-- Array elements after the first; input ws-skipped, at `,` or `]`. -/
def parseElems (py : Bool) : Nat → Str → List Json → Option (Json × Str)
  | 0, _, _ => none
  | fuel + 1, s, acc =>
    match s with
    | ']' :: r => some (Json.arr acc, r)
    | ',' :: r =>
      match parseVal py fuel (skipJWs r) with
      | some (v, r2) => parseElems py fuel (skipJWs r2) (acc ++ [v])
      | none => none
    | _ => none
end

/-- `json.loads`: one value, then only trailing whitespace. -/
def jsonLoads (s : Str) : Option Json :=
  match parseVal false (s.length + 1) s with
  | some (v, rest) => if (skipJWs rest).isEmpty then some v else none
  | none => none

/-- `ast.literal_eval` (modeled subset; surrounding whitespace tolerated). -/
def ast_literal_eval (s : Str) : Option Json :=
  match parseVal true (s.length + 1) s with
  | some (v, rest) => if (skipJWs rest).isEmpty then some v else none
  | none => none

/-! ## Structured-Response Repair (`clean_and_parse_json`, src/main.py lines 75-106) -/

def fenceLit : Str := "```json".toList

def fenceTicks : Str := "```".toList

/-- The lazy `.*?` of the fence regex: collect body characters up to and
including the first `\x7d` that is followed by optional whitespace and
three backticks. -/
def fenceClose : Str → Option Str
  | [] => none
  | c :: rest =>
    if c = '\x7d' && fenceTicks.isPrefixOf (rest.dropWhile isPyWs) then
      some ['\x7d']
    else
      match fenceClose rest with
      | some tail => some (c :: tail)
      | none => none

/-- Complete the fence regex just after its `` ```json `` literal:
`\s*` then the captured `(\{.*?\})` group. -/
def fenceFrom (s : Str) : Option Str :=
  match s.dropWhile isPyWs with
  | '\x7b' :: rest =>
    match fenceClose rest with
    | some tail => some ('\x7b' :: tail)
    | none => none
  | _ => none

/-- `re.search(r'```json\s*(\{.*?\})\s*```', text, re.DOTALL)`: leftmost
start position wins; on a failed completion the scan advances. -/
def fenceSearchGo : Nat → Str → Option Str
  | 0, _ => none
  | _ + 1, [] => none
  | fuel + 1, c :: rest =>
    if fenceLit.isPrefixOf (c :: rest) then
      match fenceFrom ((c :: rest).drop 7) with
      | some g => some g
      | none => fenceSearchGo fuel rest
    else fenceSearchGo fuel rest

def fenceSearch (s : Str) : Option Str := fenceSearchGo s.length s

/-- `re.sub(r',\s*C', 'C', text)` for a closing character `C`: replace a
comma followed by maximal whitespace and `C` with `C` alone, scanning
left to right, resuming after each replacement. -/
def subCommaGo (close : Char) : Nat → Str → Str
  | 0, s => s
  | _ + 1, [] => []
  | fuel + 1, c :: rest =>
    if c = ',' then
      match rest.dropWhile isPyWs with
      | c2 :: r2 =>
        if c2 = close then close :: subCommaGo close fuel r2
        else ',' :: subCommaGo close fuel rest
      | [] => ',' :: subCommaGo close fuel rest
    else c :: subCommaGo close fuel rest

def subComma (close : Char) (s : Str) : Str := subCommaGo close s.length s

/-- `clean_and_parse_json` (src/main.py lines 75-106). -/
def clean_and_parse_json (raw : Str) : Option Json :=
  let text0 := pyStrip raw
  let text1 :=
    match fenceSearch text0 with
    | some g => g
    | none =>
      match findSub ['\x7b'] text0, rfindChar '\x7d' text0 with
      | some a, some b => pySlice a (b + 1) text0
      | _, _ => text0
  let text2 := subComma '\x7d' text1
  let text3 := subComma ']' text2
  match jsonLoads text3 with
  | some v => some v
  | none => ast_literal_eval text3

/-! ## Heuristic Classifier (`heuristic_analysis`, src/main.py lines 111-159) -/

def kSection : Str := "section".toList

def kName : Str := "name".toList

def kDesc : Str := "desc".toList

def kUrl : Str := "url".toList

def kPlatform : Str := "platform".toList

def kPromptBody : Str := "prompt_body".toList

def kConfidence : Str := "confidence".toList

def kAlternative : Str := "alternative".toList

def prompt_markers : List Str :=
  [ "<Role>".toList, "<System>".toList, "<Context>".toList,
    "<Instructions>".toList, "<Output_Format>".toList,
    "<Роль>".toList, "<Система>".toList, "<Контекст>".toList, "<Инструкции>".toList,
    "Act as a".toList, "You are a".toList, "Представь, что ты".toList,
    "Напиши промпт".toList, "System prompt:".toList, "Промт:".toList, "Prompt:".toList,
    "Напиши код".toList, "Write code".toList ]

/-- The loop computing `start_idx`: minimum index of any found marker,
starting from `len(text)`. -/
def heurStart (text : Str) : Nat :=
  prompt_markers.foldl
    (fun acc m =>
      match findSub m text with
      | some i => if i < acc then i else acc
      | none => acc)
    text.length

/-- The title loop: first line whose stripped length exceeds 10 and which
does not contain `"http"`, stripped and truncated to 60 characters. -/
def heurTitle (text : Str) : Str :=
  match (pySplitChar '\n' text).find?
      (fun l => decide (10 < (pyStrip l).length) && !containsSub ("http".toList) l) with
  | some l => (pyStrip l).take 60 ++ "...".toList
  | none => "AI Prompt".toList

def heuristic_analysis (text : Str) : Option Json :=
  if prompt_markers.any (fun m => containsSub m text) then
    let start_idx := heurStart text
    let prompt_body := if start_idx < text.length then pyStrip (text.drop start_idx) else text
    some (Json.obj
      [ (kSection, Json.str ("prompts".toList)),
        (kName, Json.str (heurTitle text)),
        (kDesc, Json.str ("System Prompt (Auto-detected)".toList)),
        (kUrl, Json.str ("#".toList)),
        (kPlatform, Json.str []),
        (kPromptBody, Json.str prompt_body),
        (kConfidence, Json.num 100),
        (kAlternative, Json.null) ])
  else none

/-! ## Fallback Classifier (`fallback_if_ai_fails`, src/main.py lines 161-176) -/

def fallback_if_ai_fails (text : Str) : Json :=
  let url := extract_url_from_text text
  let lines := pySplitChar '\n' text
  let title := (lines.headD []).take 50 ++ "...".toList
  if containsSub ("github.com".toList) url then
    Json.obj
      [ (kSection, Json.str ("dev".toList)), (kName, Json.str title),
        (kDesc, Json.str ("GitHub Repo".toList)), (kUrl, Json.str url),
        (kPromptBody, Json.str []), (kConfidence, Json.num 100) ]
  else
    Json.obj
      [ (kSection, Json.str ("ideas".toList)), (kName, Json.str title),
        (kDesc, Json.str (text.take 100 ++ "...".toList)),
        (kUrl, Json.str (if url = litAbsent then "#".toList else url)),
        (kPromptBody, Json.str []), (kConfidence, Json.num 50) ]

/-! ## Classification Orchestrator (`analyze_content_full_cycle`,
src/main.py lines 178-262)

A backend call is an `Option Str`: `none` models a raised exception,
`some raw` a returned reply.  The loop body runs inside `try/except`:
a parse failure, a falsy parse result, or normalization raising
(`.get` on a non-dict reply) all advance the cascade.  The second
component of the result counts how many backends were invoked. -/

def noValueTokens : List Str :=
  [ "none".toList, "missing".toList, [], "#".toList ]

/-- One step of `for key in ['platform', 'prompt_body', 'alternative']:
if data.get(key) in ['none', None]: data[key] = None` — a missing key, a
`None` value, or the literal string `"none"` is (re)assigned `None`. -/
def normNoneKey (kvs : List (Str × Json)) (k : Str) : List (Str × Json) :=
  let isNoneTok :=
    match dictGet kvs k with
    | none => true
    | some Json.null => true
    | some (Json.str s) => s = "none".toList
    | some _ => false
  if isNoneTok then dictSet kvs k Json.null else kvs

/-- The success-path normalization (src/main.py lines 244-253).  Returns
`none` when the parsed value is not a dict: `data.get` then raises
`AttributeError`, which the surrounding `except` turns into a cascade
advance. -/
def normalizeData (hard_found_url : Str) (is_url_present : Bool) (data : Json) : Option Json :=
  match data with
  | Json.obj kvs =>
    let ai_url := jGetD data kUrl (Json.str [])
    let kvs1 :=
      if noValueTokens.contains (pyLower (pyStr ai_url)) then
        dictSet kvs kUrl (Json.str (if is_url_present then hard_found_url else "#".toList))
      else kvs
    let kvs2 := normNoneKey kvs1 kPlatform
    let kvs3 := normNoneKey kvs2 kPromptBody
    let kvs4 := normNoneKey kvs3 kAlternative
    let kvs5 :=
      if kvs4.any (fun kv => kv.1 = kConfidence) then kvs4
      else kvs4 ++ [(kConfidence, Json.num 100)]
    some (Json.obj kvs5)
  | _ => none

/-- One iteration of the backend loop (src/main.py lines 228-259). -/
def cascadeAttempt (hard : Str) (present : Bool) (resp : Option Str) : Option Json :=
  match resp with
  | none => none
  | some raw =>
    match clean_and_parse_json (pyStrip raw) with
    | none => none
    | some d => if truthy d then normalizeData hard present d else none

def cascadeGo (hard : Str) (present : Bool) : List (Option Str) → Nat → Option Json × Nat
  | [], k => (none, k)
  | r :: rs, k =>
    match cascadeAttempt hard present r with
    | some d => (some d, k + 1)
    | none => cascadeGo hard present rs (k + 1)

def analyze_content_full_cycle (text : Str) (resps : List (Option Str)) : Json × Nat :=
  match heuristic_analysis text with
  | some d => (d, 0)
  | none =>
    let hard := extract_url_from_text text
    let present := hard != litAbsent
    match cascadeGo hard present resps 0 with
    | (some d, k) => (d, k)
    | (none, k) => (fallback_if_ai_fails text, k)

/-! ## Markup renderer (`generate_card_html`, src/main.py lines 267-364)

`html.escape` (quote=True) escapes `&`, `<`, `>`, `"`, `'`; since the
replacement for `&` is performed first and no later replacement target
occurs in any replacement text, the sequential `str.replace` chain is
exactly a character-wise expansion.  The random card id
`uuid.uuid4().hex` is modeled as an explicit `uuidHex` parameter. -/

def escHtmlChar (c : Char) : Str :=
  if c = '&' then "&amp;".toList
  else if c = '<' then "&lt;".toList
  else if c = '>' then "&gt;".toList
  else if c = '"' then "&quot;".toList
  else if c = '\'' then "&#x27;".toList
  else [c]

def htmlEscape (s : Str) : Str := s.flatMap escHtmlChar

/-- The `meta` style table: `section ↦ (icon, color)`, default = the
`"ai"` entry. -/
def metaStyle (s : Str) : Str × Str :=
  if s = "ideas".toList then ("lightbulb".toList, "yellow".toList)
  else if s = "fun".toList then ("gamepad".toList, "pink".toList)
  else if s = "shop".toList then ("cart-shopping".toList, "rose".toList)
  else if s = "ai".toList then ("robot".toList, "purple".toList)
  else if s = "prompts".toList then ("key".toList, "amber".toList)
  else if s = "study".toList then ("graduation-cap".toList, "indigo".toList)
  else if s = "prog".toList then ("code".toList, "blue".toList)
  else if s = "dev".toList then ("flask".toList, "emerald".toList)
  else if s = "apk".toList then ("mobile-screen".toList, "green".toList)
  else if s = "sys".toList then ("microchip".toList, "cyan".toList)
  else if s = "osint".toList then ("eye".toList, "red".toList)
  else ("robot".toList, "purple".toList)

def cardPromptsTpl (color icon name p_id p_body desc : Str) : Str :=
    ("\n        <div class=\"glass-card p-8 rounded-[2rem] border-l-4 border-".toList)
      ++ color
      ++ ("-500 mb-6 reveal active relative overflow-hidden group\">\n            <div class=\"absolute top-0 right-0 p-4 opacity-10 group-hover:opacity-20 transition-opacity\">\n                <i class=\"fas fa-".toList)
      ++ icon
      ++ (" text-6xl text-".toList)
      ++ color
      ++ ("-500\"></i>\n            </div>\n            <div class=\"relative z-10\">\n                <div class=\"flex justify-between items-center mb-4\">\n                    <div>\n                        <span class=\"text-[9px] font-black text-".toList)
      ++ color
      ++ ("-400 tracking-widest uppercase\">AI PROMPT</span>\n                        <h3 class=\"text-xl font-bold text-white mt-1\">".toList)
      ++ name
      ++ ("</h3>\n                    </div>\n                    <button onclick=\"copyToClipboard('".toList)
      ++ p_id
      ++ ("-text')\" class=\"bg-white/5 hover:bg-".toList)
      ++ color
      ++ ("-500/20 border border-white/10 px-4 py-2 rounded-xl text-xs font-bold transition-all flex items-center gap-2\">\n                        <i class=\"fas fa-copy\"></i> Copy\n                    </button>\n                </div>\n                <div class=\"bg-black/30 rounded-xl p-4 border border-white/5\">\n                    <div id=\"".toList)
      ++ p_id
      ++ ("-text\" class=\"text-xs text-gray-300 font-mono leading-relaxed whitespace-pre-wrap max-h-40 overflow-y-auto custom-scrollbar\"><xmp>".toList)
      ++ p_body
      ++ ("</xmp></div>\n                </div>\n                <p class=\"text-gray-500 text-xs mt-3 italic\">".toList)
      ++ desc
      ++ ("</p>\n            </div>\n        </div>\n        ".toList)
  

def cardApkTpl (color icon name platform desc url : Str) : Str :=
    ("\n        <div class=\"glass-card p-8 rounded-[2rem] hover:bg-white/5 transition-all duration-300 reveal active border-t border-white/5 mb-6\">\n            <div class=\"flex items-start gap-4\">\n                <div class=\"w-12 h-12 rounded-2xl bg-".toList)
      ++ color
      ++ ("-500/10 flex items-center justify-center shrink-0 border border-".toList)
      ++ color
      ++ ("-500/20\">\n                    <i class=\"fas fa-".toList)
      ++ icon
      ++ (" text-".toList)
      ++ color
      ++ ("-400 text-lg\"></i>\n                </div>\n                <div class=\"flex-1\">\n                    <div class=\"flex justify-between items-start\">\n                        <h3 class=\"text-lg font-bold text-gray-100 leading-tight mb-2\">".toList)
      ++ name
      ++ ("</h3>\n                        <span class=\"text-[9px] font-bold bg-".toList)
      ++ color
      ++ ("-500 text-black px-2 py-0.5 rounded uppercase tracking-wider\">".toList)
      ++ platform
      ++ ("</span>\n                    </div>\n                    <p class=\"text-sm text-gray-400 leading-relaxed mb-4\">".toList)
      ++ desc
      ++ ("</p>\n                    <a href=\"".toList)
      ++ url
      ++ ("\" target=\"_blank\" class=\"inline-flex items-center gap-2 text-xs font-bold text-white hover:text-".toList)
      ++ color
      ++ ("-400 transition-colors group\">\n                        DOWNLOAD <i class=\"fas fa-download group-hover:translate-y-1 transition-transform\"></i>\n                    </a>\n                </div>\n            </div>\n        </div>\n        ".toList)
  

def cardStdTpl (color icon name s desc url : Str) : Str :=
    ("\n    <div class=\"glass-card p-8 rounded-[2rem] hover:bg-white/5 transition-all duration-300 reveal active border-t border-white/5 mb-6\">\n        <div class=\"flex items-start gap-4\">\n            <div class=\"w-12 h-12 rounded-2xl bg-".toList)
      ++ color
      ++ ("-500/10 flex items-center justify-center shrink-0 border border-".toList)
      ++ color
      ++ ("-500/20\">\n                <i class=\"fas fa-".toList)
      ++ icon
      ++ (" text-".toList)
      ++ color
      ++ ("-400 text-lg\"></i>\n            </div>\n            <div class=\"flex-1\">\n                <div class=\"flex justify-between items-start\">\n                    <h3 class=\"text-lg font-bold text-gray-100 leading-tight mb-2\">".toList)
      ++ name
      ++ ("</h3>\n                    <span class=\"text-[9px] font-bold bg-".toList)
      ++ color
      ++ ("-500/20 text-".toList)
      ++ color
      ++ ("-300 px-2 py-1 rounded uppercase tracking-wider\">".toList)
      ++ s
      ++ ("</span>\n                </div>\n                <p class=\"text-sm text-gray-400 leading-relaxed mb-4\">".toList)
      ++ desc
      ++ ("</p>\n                <a href=\"".toList)
      ++ url
      ++ ("\" target=\"_blank\" class=\"inline-flex items-center gap-2 text-xs font-bold text-white hover:text-".toList)
      ++ color
      ++ ("-400 transition-colors group\">\n                    OPEN RESOURCE <i class=\"fas fa-arrow-right group-hover:translate-x-1 transition-transform\"></i>\n                </a>\n            </div>\n        </div>\n    </div>\n    ".toList)
  

def generate_card_html (uuidHex : Str) (data : Json) : Str :=
  let s := pyLower (pyStr (jGetD data kSection (Json.str ("ai".toList))))
  let name := htmlEscape (pyStr (jGetD data kName (Json.str ("Resource".toList))))
  let url := pyStr (jGetD data kUrl (Json.str ("#".toList)))
  let desc := htmlEscape (pyStr (jGetD data kDesc (Json.str ("No description.".toList))))
  let p_body := pyReplace ("</xmp>".toList) [] (pyStr (jGetD data kPromptBody (Json.str [])))
  let platform := htmlEscape (pyStr (jGetD data kPlatform (Json.str ("App".toList))))
  let style := metaStyle s
  let icon := style.1
  let color := style.2
  if s = "prompts".toList then
    cardPromptsTpl color icon name ("p-".toList ++ uuidHex.take 6) p_body desc
  else if s = "apk".toList then
    cardApkTpl color icon name platform desc url
  else
    cardStdTpl color icon name s desc url

/-! ## Record Store Gateway (`sync_push_to_github`, src/main.py lines 369-399)

The GitHub read is modeled by the `html_content` parameter; a performed
write is modeled by returning `some new_html` in the second component
(`none` = no write).  Network/auth failures of the real store are the
`except` branch of the source; in this pure model the only modeled way
into it is `target_url.rstrip('/')` raising on a non-string `url`. -/

inductive PushResult where
  | OK | DUPLICATE | MARKER_ERROR | GIT_ERROR
  deriving DecidableEq

def markerPre : Str := "<!-- INSERT_".toList

def markerPost : Str := "_HERE -->".toList

/-- The insertion marker computed for a record's section. -/
def insertMarker (data : Json) : Str :=
  markerPre ++ pyUpper (pyStr (jGetD data kSection (Json.str ("ai".toList)))) ++ markerPost

def sync_push_to_github (uuidHex : Str) (data : Json) (force : Bool) (html_content : Str) :
    PushResult × Option Str :=
  match jGetD data kUrl (Json.str []) with
  | Json.str target_url =>
    let clean_target := pyRStripSet (fun c => c = '/') target_url
    if !force && !target_url.isEmpty && target_url ≠ "#".toList && target_url ≠ litAbsent
        && containsSub clean_target html_content then
      (PushResult.DUPLICATE, none)
    else
      let target_marker := insertMarker data
      if !containsSub target_marker html_content then
        (PushResult.MARKER_ERROR, none)
      else
        let new_card := generate_card_html uuidHex data
        let new_html := pyReplace target_marker (new_card ++ '\n' :: target_marker) html_content
        (PushResult.OK, some new_html)
  | _ => (PushResult.GIT_ERROR, none)

/-! ## Publication Workflow (aiogram FSM, src/main.py lines 47-51 and 404-533)

The per-user session is the FSM stage plus the held record.  A handler
outcome is the new session and, when a publish was attempted, the pushed
record together with the gateway result and the written content. -/

inductive Stage where
  | idle | wait_link | confirm_duplicate | select_category
  deriving DecidableEq

structure Session where
  stage : Stage
  tool_data : Option Json

abbrev PushInfo := Json × PushResult × Option Str

def clearedSession : Session := ⟨Stage.idle, none⟩

/-- `process_category_selection` (src/main.py lines 404-422).  A non-dict
held record would raise on item assignment; aiogram would drop the update
leaving the session unchanged — modeled by the last branch. -/
def process_category_selection (uuidHex : Str) (cbdata : Str) (sess : Session) (doc : Str) :
    Session × Option PushInfo :=
  let selected_cat := (pySplitChar '_' cbdata).getD 1 []
  match sess.tool_data with
  | none => (clearedSession, none)
  | some td =>
    if !truthy td then (clearedSession, none)
    else
      match td with
      | Json.obj kvs =>
        let td2 := Json.obj (dictSet kvs kSection (Json.str selected_cat))
        let res := sync_push_to_github uuidHex td2 false doc
        (clearedSession, some (td2, res.1, res.2))
      | _ => (sess, none)

/-- `process_duplicate_decision` (src/main.py lines 424-442). -/
def process_duplicate_decision (uuidHex : Str) (cbdata : Str) (sess : Session) (doc : Str) :
    Session × Option PushInfo :=
  match sess.tool_data with
  | none => (clearedSession, none)
  | some td =>
    if !truthy td then (clearedSession, none)
    else if cbdata = "dup_no".toList then (clearedSession, none)
    else
      let res := sync_push_to_github uuidHex td true doc
      (clearedSession, some (td, res.1, res.2))

/-- `manual_link_handler` (src/main.py lines 444-475). -/
def manual_link_handler (uuidHex : Str) (msg : Str) (sess : Session) (doc : Str) :
    Session × Option PushInfo :=
  match sess.tool_data with
  | none => (clearedSession, none)
  | some td =>
    match td with
    | Json.obj kvs =>
      let user_link := pyStrip msg
      let td2 := Json.obj (dictSet kvs kUrl
        (Json.str (if user_link = "#".toList then "#".toList else user_link)))
      let res := sync_push_to_github uuidHex td2 false doc
      match res.1 with
      | PushResult.OK => (clearedSession, some (td2, res.1, res.2))
      | PushResult.DUPLICATE => (⟨Stage.confirm_duplicate, some td2⟩, some (td2, res.1, res.2))
      | _ => (clearedSession, some (td2, res.1, res.2))
    | _ => (sess, none)

/-- `confidence = data.get('confidence', 100)` as used in `confidence < 80`:
missing defaults to 100, a Python bool is an int; any other non-numeric
value raises `TypeError` in the comparison (`none`). -/
def getConfidence (data : Json) : Option Int :=
  match jGet data kConfidence with
  | none => some 100
  | some (Json.num n) => some n
  | some (Json.bool b) => some (if b then 1 else 0)
  | some _ => none

/-- The post-classification part of `main_content_handler`
(src/main.py lines 492-533), entered from the idle state with the
classified record.  `none` models the `TypeError` crash on a
non-numeric confidence (update dropped, session unchanged). -/
def handle_classified (uuidHex : Str) (data : Json) (doc : Str) :
    Option (Session × Option PushInfo) :=
  let sect := pyLower (pyStr (jGetD data kSection (Json.str ("ai".toList))))
  match getConfidence data with
  | none => none
  | some confidence =>
    let alt_section := jGet data kAlternative
    let altTruthy := match alt_section with
      | none => false
      | some v => truthy v
    let altNeSect := match alt_section with
      | some (Json.str a) => a ≠ sect
      | some _ => true
      | none => true
    let url := pyStr (jGetD data kUrl (Json.str []))
    if confidence < 80 && altTruthy && altNeSect then
      some (⟨Stage.select_category, some data⟩, none)
    else
      let is_no_link := sect = "prompts".toList || sect = "ideas".toList
        || sect = "shop".toList || sect = "fun".toList
      let is_bad := url = litAbsent || url = [] || url = "#".toList || url = "None".toList
        || containsSub ("ygalaxyy".toList) url
      if !is_no_link && is_bad then
        some (⟨Stage.wait_link, some data⟩, none)
      else
        let res := sync_push_to_github uuidHex data false doc
        match res.1 with
        | PushResult.OK => some (clearedSession, some (data, res.1, res.2))
        | PushResult.DUPLICATE =>
          some (⟨Stage.confirm_duplicate, some data⟩, some (data, res.1, res.2))
        | _ => some (clearedSession, some (data, res.1, res.2))

/-- `main_content_handler` (src/main.py lines 477-533). -/
def main_content_handler (uuidHex : Str) (content : Str) (resps : List (Option Str)) (doc : Str) :
    Option (Session × Option PushInfo) :=
  if (pyStrip content).length < 5 then some (clearedSession, none)
  else
    let data := (analyze_content_full_cycle content resps).1
    if !truthy data then some (clearedSession, none)
    else handle_classified uuidHex data doc

/-- Callback-query dispatch: the registered handlers' filters in source
order (`cat_` prefix + `select_category` state; `dup_yes`/`dup_no` +
`confirm_duplicate` state).  `none` = no handler matches and aiogram
ignores the update, leaving the session untouched. -/
def dispatchCallback (uuidHex : Str) (cbdata : Str) (sess : Session) (doc : Str) :
    Option (Session × Option PushInfo) :=
  if ("cat_".toList).isPrefixOf cbdata && sess.stage = Stage.select_category then
    some (process_category_selection uuidHex cbdata sess doc)
  else if (cbdata = "dup_yes".toList || cbdata = "dup_no".toList)
      && sess.stage = Stage.confirm_duplicate then
    some (process_duplicate_decision uuidHex cbdata sess doc)
  else none

/-- Text-message dispatch: `manual_link_handler` is gated on the
`wait_link` state, `main_content_handler` on no state; a message in the
other waiting states matches no handler. -/
def dispatchMessage (uuidHex : Str) (msg : Str) (resps : List (Option Str)) (sess : Session)
    (doc : Str) : Option (Session × Option PushInfo) :=
  if sess.stage = Stage.wait_link then some (manual_link_handler uuidHex msg sess doc)
  else if sess.stage = Stage.idle then main_content_handler uuidHex msg resps doc
  else none

def c3rec : Json := Json.obj
  [ (kSection, Json.str ("ai".toList)), (kName, Json.str ("SomeTool".toList)),
    (kUrl, Json.str ("http://x.com/".toList)), (kConfidence, Json.num 100) ]

def c3doc : Str := "seen http://x.com before <!-- INSERT_AI_HERE -->".toList

def c10rec : Json := Json.obj
  [ (kSection, Json.str ("ai".toList)), (kName, Json.str ("Widget".toList)),
    (kUrl, Json.str ("http://fresh.example".toList)), (kConfidence, Json.num 100) ]

def c10doc : Str := "intro <!-- INSERT_AI_HERE --> outro".toList

def c4rec79 : Json := Json.obj
  [ (kSection, Json.str ("dev".toList)), (kName, Json.str ("N".toList)),
    (kUrl, Json.str ("http://a.com".toList)),
    (kConfidence, Json.num 79), (kAlternative, Json.str ("ai".toList)) ]

def c4rec80 : Json := Json.obj
  [ (kSection, Json.str ("dev".toList)), (kName, Json.str ("N".toList)),
    (kUrl, Json.str ("http://a.com".toList)),
    (kConfidence, Json.num 80), (kAlternative, Json.str ("ai".toList)) ]

def c4rec50 : Json := Json.obj
  [ (kSection, Json.str ("dev".toList)), (kName, Json.str ("N".toList)),
    (kUrl, Json.str ("http://a.com".toList)),
    (kConfidence, Json.num 50), (kAlternative, Json.str ("dev".toList)) ]

def c4doc : Str := "<!-- INSERT_DEV_HERE -->".toList

def c1rec : Json := Json.obj
  [ (kSection, Json.str ("ai".toList)), (kName, Json.str ("NiceTool".toList)),
    (kDesc, Json.str ("D".toList)), (kUrl, Json.str ("MISSING".toList)),
    (kConfidence, Json.num 60), (kAlternative, Json.str ("dev".toList)) ]

def c1doc : Str := "<!-- INSERT_DEV_HERE -->".toList

/-! ## Cancellation (claim C8) -/

def c8rec : Json := Json.obj
  [ (kSection, Json.str ("dev".toList)), (kName, Json.str ("N".toList)),
    (kUrl, Json.str ("MISSING".toList)), (kConfidence, Json.num 100) ]

def c8doc : Str := "<!-- INSERT_DEV_HERE -->".toList

/-! ## Orchestrator totality (claim C2) -/

def wellFormedRecord (d : Json) : Prop :=
  isObj d = true
  ∧ (∃ s, jGet d kSection = some (Json.str s))
  ∧ (∃ s, jGet d kName = some (Json.str s))
  ∧ (∃ s, jGet d kDesc = some (Json.str s))
  ∧ (∃ u, jGet d kUrl = some (Json.str u) ∧ u ≠ [] ∧ ∀ c ∈ u, isPyWs c = false)
  ∧ (∃ n, jGet d kConfidence = some (Json.num n))

def c1kvs : List (Str × Json) :=
  [ (kSection, Json.str ("ai".toList)), (kName, Json.str ("NiceTool".toList)),
    (kDesc, Json.str ("D".toList)), (kUrl, Json.str ("MISSING".toList)),
    (kConfidence, Json.num 60), (kAlternative, Json.str ("dev".toList)) ]

def scenAText : Str := "Act as a senior Python reviewer. Review my code.".toList

def promptsDoc : Str := "<!-- INSERT_PROMPTS_HERE -->".toList

/-- What the renderer actually escapes, per template: `name`, `desc` and
(apk only) `platform` appear HTML-escaped; `url` appears verbatim
(un-escaped); `prompt_body` appears verbatim with every `</xmp>`
occurrence removed. -/
def rendererEscapeSpec (uuidHex : Str) (data : Json) : Prop :=
  let s := pyLower (pyStr (jGetD data kSection (Json.str ("ai".toList))))
  let out := generate_card_html uuidHex data
  let name := htmlEscape (pyStr (jGetD data kName (Json.str ("Resource".toList))))
  let desc := htmlEscape (pyStr (jGetD data kDesc (Json.str ("No description.".toList))))
  let url := pyStr (jGetD data kUrl (Json.str ("#".toList)))
  let platform := htmlEscape (pyStr (jGetD data kPlatform (Json.str ("App".toList))))
  let p_body := pyReplace ("</xmp>".toList) [] (pyStr (jGetD data kPromptBody (Json.str [])))
  if s = "prompts".toList then
    containsSub name out = true ∧ containsSub desc out = true
      ∧ containsSub p_body out = true
  else if s = "apk".toList then
    containsSub name out = true ∧ containsSub desc out = true
      ∧ containsSub platform out = true ∧ containsSub url out = true
  else
    containsSub name out = true ∧ containsSub desc out = true
      ∧ containsSub url out = true

def c9rec : Json := Json.obj
  [ (kSection, Json.str ("ai".toList)), (kName, Json.str ("Name".toList)),
    (kDesc, Json.str ("Desc".toList)), (kUrl, Json.str ("a\"b".toList)) ]

/-! ## Repair idempotence over a render round-trip (claim C5)

The flat-record fragment: the classifier contract's records are objects
whose values are strings, integers, booleans or null; `safeChar` keeps
the strings inside printable ASCII without `"` or `\` so that
`json.dumps` escapes nothing. -/

def safeChar (c : Char) : Bool :=
  32 ≤ c.toNat && c.toNat ≤ 126 && c ≠ '"' && c ≠ '\\'

def safeStr (s : Str) : Bool := s.all safeChar

def flatValOk : Json → Bool
  | Json.null => true
  | Json.bool _ => true
  | Json.num _ => true
  | Json.str s => safeStr s
  | _ => false

def nodupKeys : List (Str × Json) → Bool
  | [] => true
  | (k, _) :: rest => !(rest.any (fun kv => kv.1 = k)) && nodupKeys rest

def fragKVs (kvs : List (Str × Json)) : Bool :=
  kvs.all (fun kv => safeStr kv.1 && flatValOk kv.2) && nodupKeys kvs

/-- The flat safe fragment of records. -/
def fragObj : Json → Bool
  | Json.obj kvs => fragKVs kvs
  | _ => false

/-- The character after a rendered number inside a rendered object or
array can only be a separator or closer, which neither extends the digit
run nor looks like a float marker. -/
def numBoundary : Str → Bool
  | [] => true
  | c :: _ => !isDigitCh c && !(c = '.') && !(c = 'e') && !(c = 'E')

def sepBoundary : Str → Bool
  | [] => true
  | c :: _ => c = ',' || c = '\x7d' || c = ']'

/-! ## Theorems -/

theorem pyReplace_test : pyReplace ['a','b'] ['X'] ['z','a','b','a','b'] = ['z','X','X'] := by
  decide

theorem jsonDumps_test :
    jsonDumps (Json.obj [("a".toList, Json.num 1), ("b".toList, Json.str ("x".toList))])
      = "\x7b\"a\": 1, \"b\": \"x\"\x7d".toList := by
  decide

theorem jsonLoads_test :
    jsonLoads ("\x7b\"a\": 1, \"b\": \"x\"\x7d".toList)
      = some (Json.obj [("a".toList, Json.num 1), ("b".toList, Json.str ("x".toList))]) := by
  rfl

theorem ast_literal_eval_test :
    ast_literal_eval ("\x7b'a': True\x7d".toList)
      = some (Json.obj [("a".toList, Json.bool true)]) := by
  rfl

theorem clean_and_parse_fence_test :
    clean_and_parse_json ("noise ```json \x7b\"a\": 1,\x7d``` tail".toList)
      = some (Json.obj [("a".toList, Json.num 1)]) := by
  rfl

theorem clean_and_parse_comma_test :
    clean_and_parse_json ("\x7b\"a\": \",,\x7dx\"\x7d".toList)
      = some (Json.obj [("a".toList, Json.str (",\x7dx".toList))]) := by
  rfl

theorem clean_and_parse_roundtrip_break_test :
    clean_and_parse_json (jsonDumps (Json.obj [("a".toList, Json.str (",\x7dx".toList))]))
      = some (Json.obj [("a".toList, Json.str ("\x7dx".toList))]) := by
  rfl

theorem analyze_ws_url_test :
    jGet (analyze_content_full_cycle ("just a note".toList)
        [some ("\x7b\"section\": \"ai\", \"url\": \" \"\x7d".toList)]).1 kUrl
      = some (Json.str (" ".toList)) := by
  rfl

/-! ## Basic lemmas: substring tests, association lists -/

theorem containsSub_cons (n : Str) (c : Char) (rest : Str) :
    containsSub n (c :: rest) = (n.isPrefixOf (c :: rest) || containsSub n rest) := rfl

theorem containsSub_of_isPrefixOf {n s : Str} (h : n.isPrefixOf s = true) :
    containsSub n s = true := by
  cases s with
  | nil =>
    have : n = [] := by
      cases n with
      | nil => rfl
      | cons a t => simp [List.isPrefixOf] at h
    simp [containsSub, this]
  | cons c rest => simp [containsSub_cons, h]

theorem containsSub_append_right {n b : Str} (a : Str) (h : containsSub n b = true) :
    containsSub n (a ++ b) = true := by
  induction a with
  | nil => simpa using h
  | cons c a ih => simp [containsSub_cons, ih]

theorem isPrefixOf_append_of_isPrefixOf {n s : Str} (b : Str) (h : n.isPrefixOf s = true) :
    n.isPrefixOf (s ++ b) = true := by
  rw [List.isPrefixOf_iff_prefix] at h ⊢
  exact h.trans (List.prefix_append s b)

theorem containsSub_append_left {n a : Str} (b : Str) (h : containsSub n a = true) :
    containsSub n (a ++ b) = true := by
  induction a with
  | nil =>
    have : n = [] := by simpa [containsSub, List.isEmpty_iff] using h
    subst this
    cases b with
    | nil => simp [containsSub]
    | cons c rest => simp [containsSub_cons, List.isPrefixOf]
  | cons c a ih =>
    rw [containsSub_cons] at h
    rcases Bool.or_eq_true_iff.mp h with h1 | h1
    · have := isPrefixOf_append_of_isPrefixOf (n := n) (s := c :: a) b h1
      simpa [containsSub_cons] using Bool.or_eq_true_iff.mpr (Or.inl this)
    · simp [containsSub_cons, ih h1]

theorem containsSub_self (n : Str) : containsSub n n = true := by
  cases n with
  | nil => simp [containsSub]
  | cons c rest =>
    apply containsSub_of_isPrefixOf
    rw [List.isPrefixOf_iff_prefix]

theorem dictGet_dictSet_self (kvs : List (Str × Json)) (k : Str) (v : Json) :
    dictGet (dictSet kvs k v) k = some v := by
  induction kvs with
  | nil => simp [dictSet, dictGet, List.find?]
  | cons kv rest ih =>
    obtain ⟨k0, v0⟩ := kv
    by_cases h : k0 = k
    · simp [dictSet, h, dictGet, List.find?]
    · simp only [dictSet, if_neg h]
      simpa [dictGet, List.find?, h] using ih

theorem dictGet_dictSet_ne (kvs : List (Str × Json)) {k' k : Str} (v : Json) (h : k' ≠ k) :
    dictGet (dictSet kvs k' v) k = dictGet kvs k := by
  induction kvs with
  | nil => simp [dictSet, dictGet, List.find?, h]
  | cons kv rest ih =>
    obtain ⟨k0, v0⟩ := kv
    by_cases h0 : k0 = k'
    · subst h0
      simp [dictSet, dictGet, List.find?, h]
    · simp only [dictSet, if_neg h0]
      by_cases h1 : k0 = k
      · simp [dictGet, List.find?, h1]
      · simpa [dictGet, List.find?, h1] using ih

theorem dictGet_append_of_some {xs : List (Str × Json)} {k : Str} {v : Json}
    (ys : List (Str × Json)) (h : dictGet xs k = some v) :
    dictGet (xs ++ ys) k = some v := by
  induction xs with
  | nil => simp [dictGet, List.find?] at h
  | cons kv rest ih =>
    obtain ⟨k0, v0⟩ := kv
    by_cases h0 : k0 = k
    · rw [List.cons_append, dictGet,
        List.find?_cons_of_pos _ (by simpa using h0)]
      rw [dictGet, List.find?_cons_of_pos _ (by simpa using h0)] at h
      exact h
    · rw [List.cons_append, dictGet,
        List.find?_cons_of_neg _ (by simpa using h0)]
      rw [dictGet, List.find?_cons_of_neg _ (by simpa using h0)] at h
      exact ih h

/-! ## Marker preservation (claim C10) -/

theorem pyReplaceGo_preserves {pat repl : Str} (hne : pat ≠ [])
    (hrep : containsSub pat repl = true) :
    ∀ fuel s, s.length ≤ fuel → containsSub pat s = true →
      containsSub pat (pyReplaceGo pat repl fuel s) = true := by
  intro fuel
  induction fuel with
  | zero =>
    intro s hlen h
    have : s = [] := List.eq_nil_of_length_eq_zero (Nat.le_zero.mp hlen)
    subst this
    simp [containsSub, List.isEmpty_iff] at h
    exact absurd h hne
  | succ fuel ih =>
    intro s hlen h
    cases s with
    | nil =>
      simp [containsSub, List.isEmpty_iff] at h
      exact absurd h hne
    | cons c rest =>
      by_cases hp : pat.isPrefixOf (c :: rest) = true
      · rw [pyReplaceGo, if_pos hp]
        exact containsSub_append_left _ hrep
      · rw [pyReplaceGo, if_neg hp]
        rw [containsSub_cons] at h
        rcases Bool.or_eq_true_iff.mp h with h1 | h1
        · exact absurd h1 hp
        · have := ih rest (by simpa using Nat.le_of_succ_le_succ (by simpa using hlen)) h1
          simp [containsSub_cons, this]

theorem pyReplace_preserves {pat repl s : Str} (hne : pat ≠ [])
    (hrep : containsSub pat repl = true) (h : containsSub pat s = true) :
    containsSub pat (pyReplace pat repl s) = true := by
  unfold pyReplace
  rw [if_neg (by simpa [List.isEmpty_iff] using hne)]
  exact pyReplaceGo_preserves hne hrep s.length s (Nat.le_refl _) h

theorem insertMarker_ne_nil (data : Json) : insertMarker data ≠ [] := by
  unfold insertMarker markerPre
  intro h
  simp at h

/-- C10: whenever a publish succeeds (`OK` with written content), the
section's insertion marker still occurs in the new document content —
the card is spliced in front of the marker and the marker re-emitted. -/
theorem marker_preserved_by_publish (uuidHex : Str) (data : Json) (force : Bool)
    (doc nd : Str)
    (h : sync_push_to_github uuidHex data force doc = (PushResult.OK, some nd)) :
    containsSub (insertMarker data) nd = true := by
  unfold sync_push_to_github at h
  cases hu : jGetD data kUrl (Json.str []) <;> rw [hu] at h <;> try simp at h
  case str target_url =>
    by_cases hdup : (!force && !target_url.isEmpty && !(target_url = "#".toList)
        && !(target_url = litAbsent)
        && containsSub (pyRStripSet (fun c => c = '/') target_url) doc) = true
    · rw [if_pos (by simpa using hdup)] at h
      simp at h
    · rw [if_neg (by simpa using hdup)] at h
      by_cases hm : containsSub (insertMarker data) doc = true
      · rw [if_neg (by simp [hm])] at h
        have hnd : nd = pyReplace (insertMarker data)
            (generate_card_html uuidHex data ++ '\n' :: insertMarker data) doc := by
          have := congrArg Prod.snd h
          simpa using this.symm
        subst hnd
        apply pyReplace_preserves (insertMarker_ne_nil data) _ hm
        apply containsSub_append_right
        simp [containsSub_cons, containsSub_self]
      · rw [if_pos (by simpa using hm)] at h
        simp at h

/-- C3: a record whose concrete URL (not `"#"`/`"MISSING"`) already occurs
in the document (trailing-slash-stripped) yields `Duplicate` without a
write under `force=False`; re-invoking with `force=True` skips the
duplicate check and, when the section marker is present, writes and
returns `OK`. -/
theorem duplicate_then_force_roundtrip (uuidHex : Str) (data : Json) (doc : Str)
    (target_url : Str)
    (hu : jGetD data kUrl (Json.str []) = Json.str target_url)
    (hne : target_url ≠ [])
    (hnp : target_url ≠ "#".toList)
    (hna : target_url ≠ litAbsent)
    (hdup : containsSub (pyRStripSet (fun c => c = '/') target_url) doc = true) :
    sync_push_to_github uuidHex data false doc = (PushResult.DUPLICATE, none)
    ∧ (containsSub (insertMarker data) doc = true →
        ∃ nd, sync_push_to_github uuidHex data true doc = (PushResult.OK, some nd)) := by
  constructor
  · unfold sync_push_to_github
    rw [hu]
    dsimp only
    split_ifs with h1 h2
    · rfl
    all_goals
      exfalso
      apply h1
      simp [List.isEmpty_iff, hne, hna, hdup]
      simpa using hnp
  · intro hm
    have key : sync_push_to_github uuidHex data true doc
        = (PushResult.OK, some (pyReplace (insertMarker data)
            (generate_card_html uuidHex data ++ '\n' :: insertMarker data) doc)) := by
      unfold sync_push_to_github
      rw [hu]
      dsimp only
      split_ifs with h1 h2
      · exfalso; simp at h1
      · exfalso; simp [hm] at h2
      · rfl
    exact ⟨_, key⟩

theorem duplicate_then_force_roundtrip_witness :
    sync_push_to_github ("abcdef".toList) c3rec false c3doc = (PushResult.DUPLICATE, none)
    ∧ (containsSub (insertMarker c3rec) c3doc = true →
        ∃ nd, sync_push_to_github ("abcdef".toList) c3rec true c3doc
          = (PushResult.OK, some nd)) :=
  duplicate_then_force_roundtrip ("abcdef".toList) c3rec c3doc ("http://x.com/".toList)
    (by rfl) (by decide) (by decide) (by decide) (by decide)

theorem marker_preserved_by_publish_witness :
    sync_push_to_github ("abc123".toList) c10rec false c10doc
        = (PushResult.OK,
           some ((sync_push_to_github ("abc123".toList) c10rec false c10doc).2.getD []))
    ∧ containsSub (insertMarker c10rec)
        ((sync_push_to_github ("abc123".toList) c10rec false c10doc).2.getD []) = true :=
  ⟨by rfl,
   marker_preserved_by_publish ("abc123".toList) c10rec false c10doc _ (by rfl)⟩

/-- C4: entering the category-choice state from idle on a new classified
record happens exactly when `confidence < 80`, an `alternative` is
present (truthy), and it differs from the (lowercased) section. -/
theorem disambiguation_gate_exact (uuidHex : Str) (doc : Str) (data : Json)
    (sect : Str) (conf : Int)
    (hs : jGetD data kSection (Json.str ("ai".toList)) = Json.str sect)
    (hlow : pyLower sect = sect)
    (hc : jGet data kConfidence = some (Json.num conf))
    (halt : jGet data kAlternative = none ∨ ∃ a, jGet data kAlternative = some (Json.str a)) :
    ((handle_classified uuidHex data doc).map (fun p => p.1.stage) = some Stage.select_category)
      ↔ (conf < 80 ∧ ∃ a, jGet data kAlternative = some (Json.str a) ∧ a ≠ [] ∧ a ≠ sect) := by
  have hconf : getConfidence data = some conf := by
    unfold getConfidence
    rw [hc]
  unfold handle_classified
  rw [hs, hconf]
  dsimp only
  rw [show pyStr (Json.str sect) = sect from rfl, hlow]
  rcases halt with h | ⟨a, h⟩
  · rw [h]
    dsimp only
    rw [if_neg (by simp)]
    constructor
    · intro hfalse
      exfalso
      revert hfalse
      split
      · simp
      · split <;> simp [clearedSession]
    · rintro ⟨-, a, ha, -⟩
      simp at ha
  · rw [h]
    dsimp only
    by_cases hcond : (decide (conf < 80) && truthy (Json.str a) && decide (a ≠ sect)) = true
    · rw [if_pos hcond]
      constructor
      · intro _
        have hx := hcond
        simp only [Bool.and_eq_true, decide_eq_true_eq] at hx
        have hne1 : a ≠ [] := by
          have ht := hx.1.2
          simp only [truthy] at ht
          simpa [List.isEmpty_iff] using ht
        exact ⟨hx.1.1, a, rfl, hne1, hx.2⟩
      · intro _
        rfl
    · rw [if_neg hcond]
      constructor
      · intro hfalse
        exfalso
        revert hfalse
        split
        · simp
        · split <;> simp [clearedSession]
      · rintro ⟨h1, a2, ha2, h2, h3⟩
        injection ha2 with ha2
        injection ha2 with ha2
        subst ha2
        exact (hcond (by simp [h1, truthy, List.isEmpty_iff, h2, h3])).elim

theorem disambiguation_gate_exact_witness :
    ((handle_classified ("ab".toList) c4rec79 c4doc).map (fun p => p.1.stage)
        = some Stage.select_category)
    ∧ ((handle_classified ("ab".toList) c4rec80 c4doc).map (fun p => p.1.stage)
        ≠ some Stage.select_category)
    ∧ ((handle_classified ("ab".toList) c4rec50 c4doc).map (fun p => p.1.stage)
        ≠ some Stage.select_category) := by
  refine ⟨?_, ?_, ?_⟩
  · exact (disambiguation_gate_exact ("ab".toList) c4doc c4rec79 ("dev".toList) 79
      (by rfl) (by decide) (by rfl) (Or.inr ⟨"ai".toList, by rfl⟩)).mpr
      ⟨by decide, "ai".toList, by rfl, by decide, by decide⟩
  · intro hl
    have hx := (disambiguation_gate_exact ("ab".toList) c4doc c4rec80 ("dev".toList) 80
      (by rfl) (by decide) (by rfl) (Or.inr ⟨"ai".toList, by rfl⟩)).mp hl
    exact absurd hx.1 (by decide)
  · intro hl
    have hx := (disambiguation_gate_exact ("ab".toList) c4doc c4rec50 ("dev".toList) 50
      (by rfl) (by decide) (by rfl) (Or.inr ⟨"dev".toList, by rfl⟩)).mp hl
    rcases hx with ⟨-, a, ha, -, hnes⟩
    have : a = "dev".toList := by
      have h1 : jGet c4rec50 kAlternative = some (Json.str ("dev".toList)) := by rfl
      rw [h1] at ha
      injection ha with ha
      injection ha with ha
      exact ha.symm
    exact hnes (by rw [this])

/-! ## Category selection (claim C1) -/

/-- C1 (amended): on a category choice the handler overwrites `section`
with the chosen token's category, then immediately attempts the publish
with the updated record (`force=False`) and clears the session — the
link-requirement gate is not re-applied and the disambiguation gate is
not re-run; the pushed record's `section` equals the chosen value. -/
theorem category_selection_publishes_directly (uuidHex cbdata : Str)
    (kvs : List (Str × Json)) (doc : Str)
    (htruthy : truthy (Json.obj kvs) = true) :
    ∃ info : PushInfo,
      process_category_selection uuidHex cbdata ⟨Stage.select_category, some (Json.obj kvs)⟩ doc
        = (clearedSession, some info)
      ∧ jGet info.1 kSection = some (Json.str ((pySplitChar '_' cbdata).getD 1 []))
      ∧ info.2.1 = (sync_push_to_github uuidHex info.1 false doc).1
      ∧ info.2.2 = (sync_push_to_github uuidHex info.1 false doc).2 := by
  refine ⟨⟨Json.obj (dictSet kvs kSection (Json.str ((pySplitChar '_' cbdata).getD 1 []))),
    (sync_push_to_github uuidHex
      (Json.obj (dictSet kvs kSection (Json.str ((pySplitChar '_' cbdata).getD 1 [])))) false doc).1,
    (sync_push_to_github uuidHex
      (Json.obj (dictSet kvs kSection (Json.str ((pySplitChar '_' cbdata).getD 1 [])))) false doc).2⟩,
    ?_, ?_, rfl, rfl⟩
  · unfold process_category_selection
    dsimp only
    rw [if_neg (by simp [htruthy])]
  · dsimp only
    simp only [jGet]
    exact dictGet_dictSet_self kvs kSection _

/-- C1 counterexample: the user picks `dev` (a link-requiring category)
for a record whose url is the absent-sentinel; the claim predicts the
session enters the link-request state without publishing, but the code
publishes immediately (`OK`) and returns the session to idle. -/
theorem category_selection_link_gate_cex :
    jGet c1rec kUrl = some (Json.str litAbsent)
    ∧ ¬ (("dev".toList = "prompts".toList) ∨ ("dev".toList = "ideas".toList)
        ∨ ("dev".toList = "shop".toList) ∨ ("dev".toList = "fun".toList))
    ∧ (process_category_selection ("ab".toList) ("cat_dev".toList)
        ⟨Stage.select_category, some c1rec⟩ c1doc).1.stage = Stage.idle
    ∧ (process_category_selection ("ab".toList) ("cat_dev".toList)
        ⟨Stage.select_category, some c1rec⟩ c1doc).1.stage ≠ Stage.wait_link
    ∧ ((process_category_selection ("ab".toList) ("cat_dev".toList)
        ⟨Stage.select_category, some c1rec⟩ c1doc).2.map (fun p => p.2.1))
        = some PushResult.OK := by
  refine ⟨by rfl, by decide, by rfl, by decide, by rfl⟩

/-- C8: the cancel button offered in the category-choice state carries the
`dup_no` token, but the duplicate-decision handler is registered only for
the duplicate-confirmation state, so in `select_category` no handler
matches and the session is left untouched (first conjunct); the same
token does cancel from `confirm_duplicate` (second); and in `wait_link`
every incoming message is taken as the link and triggers a publish
attempt — no input cancels (third). -/
theorem cancel_dead_in_category_choice :
    dispatchCallback ("u1".toList) ("dup_no".toList)
        ⟨Stage.select_category, some c8rec⟩ c8doc = none
    ∧ dispatchCallback ("u1".toList) ("dup_no".toList)
        ⟨Stage.confirm_duplicate, some c8rec⟩ c8doc = some (clearedSession, none)
    ∧ (∀ msg : Str, ((dispatchMessage ("u1".toList) msg [] ⟨Stage.wait_link, some c8rec⟩ c8doc).map
        (fun p => p.2.isSome)) = some true) := by
  refine ⟨by rfl, by rfl, ?_⟩
  intro msg
  unfold dispatchMessage
  rw [if_pos rfl]
  unfold manual_link_handler c8rec
  dsimp only
  split <;> rfl

/-! ## Shape of extracted URLs (claims C2, C6) -/

theorem urlChar_not_ws {c : Char} (h : urlChar c = true) : isPyWs c = false := by
  simp only [urlChar, Bool.and_eq_true, Bool.not_eq_true'] at h
  exact h.1.1.1.1.1

theorem urlTakeRun_shape {scheme : Str} {n : Nat} {s m after : Str}
    (hws : ∀ c ∈ scheme, isPyWs c = false)
    (hpu : ∃ c, c ∈ scheme ∧ isTrailPunct c = false)
    (h : urlTakeRun scheme n s = some (m, after)) :
    (∀ c ∈ m, isPyWs c = false) ∧ ∃ c, c ∈ m ∧ isTrailPunct c = false := by
  unfold urlTakeRun at h
  dsimp only at h
  split_ifs at h with hrun
  injection h with h
  injection h with hm hafter
  subst hm
  constructor
  · intro c hc
    rcases List.mem_append.mp hc with hc1 | hc1
    · exact hws c hc1
    · exact urlChar_not_ws (List.mem_takeWhile_imp hc1)
  · obtain ⟨c, hc, hcp⟩ := hpu
    exact ⟨c, List.mem_append_left _ hc, hcp⟩

theorem urlMatchAt_shape {s m after : Str} (h : urlMatchAt s = some (m, after)) :
    (∀ c ∈ m, isPyWs c = false) ∧ ∃ c, c ∈ m ∧ isTrailPunct c = false := by
  unfold urlMatchAt at h
  split_ifs at h with h1 h2 h3
  · exact urlTakeRun_shape (by decide) ⟨'h', by decide⟩ h
  · exact urlTakeRun_shape (by decide) ⟨'h', by decide⟩ h
  · exact urlTakeRun_shape (by decide) ⟨'w', by decide⟩ h

theorem findAllUrlsGo_shape :
    ∀ fuel s m, m ∈ findAllUrlsGo fuel s →
      (∀ c ∈ m, isPyWs c = false) ∧ ∃ c, c ∈ m ∧ isTrailPunct c = false := by
  intro fuel
  induction fuel with
  | zero =>
    intro s m h
    simp [findAllUrlsGo] at h
  | succ fuel ih =>
    intro s m h
    cases s with
    | nil => simp [findAllUrlsGo] at h
    | cons c rest =>
      rw [findAllUrlsGo] at h
      cases hm : urlMatchAt (c :: rest) with
      | none =>
        rw [hm] at h
        exact ih rest m h
      | some p =>
        obtain ⟨mm, after⟩ := p
        rw [hm] at h
        rcases List.mem_cons.mp h with h1 | h1
        · subst h1
          exact urlMatchAt_shape hm
        · exact ih after m h1

theorem pyRStripSet_ne_nil {p : Char → Bool} {s : Str}
    (h : ∃ c, c ∈ s ∧ p c = false) : pyRStripSet p s ≠ [] := by
  obtain ⟨c, hc, hpc⟩ := h
  unfold pyRStripSet
  intro he
  have hnil : s.reverse.dropWhile p = [] := by
    cases hrev : s.reverse.dropWhile p with
    | nil => rfl
    | cons a t =>
      rw [hrev] at he
      simp at he
  rw [List.dropWhile_eq_nil_iff] at hnil
  have := hnil c (by simpa using hc)
  rw [hpc] at this
  cases this

theorem pyRStripSet_mem {p : Char → Bool} {s : Str} {c : Char}
    (h : c ∈ pyRStripSet p s) : c ∈ s := by
  unfold pyRStripSet at h
  rw [List.mem_reverse] at h
  have := (List.dropWhile_sublist (l := s.reverse) p).mem h
  simpa using this

theorem extract_url_shape (t : Str) :
    extract_url_from_text t = litAbsent
    ∨ (extract_url_from_text t ≠ []
        ∧ ∀ c ∈ extract_url_from_text t, isPyWs c = false) := by
  unfold extract_url_from_text
  dsimp only
  cases hc : ((findAllUrls t).map (pyRStripSet isTrailPunct)).filter
      (fun u => !containsSub litTgShort u && !containsSub litTgLong u) with
  | nil => left; rfl
  | cons u us =>
    right
    have hu : u ∈ ((findAllUrls t).map (pyRStripSet isTrailPunct)).filter
        (fun u => !containsSub litTgShort u && !containsSub litTgLong u) := by
      rw [hc]; exact List.mem_cons_self _ _
    have hu2 := List.mem_of_mem_filter hu
    obtain ⟨m, hm, hmu⟩ := List.mem_map.mp hu2
    have hshape := findAllUrlsGo_shape t.length t m hm
    subst hmu
    exact ⟨pyRStripSet_ne_nil hshape.2,
      fun c hcm => hshape.1 c (pyRStripSet_mem hcm)⟩

theorem extract_url_ne_nil (t : Str) : extract_url_from_text t ≠ [] := by
  rcases extract_url_shape t with h | h
  · rw [h]; decide
  · exact h.1

/-! ## URL non-emptiness through the orchestrator (claims C2, C6) -/

theorem dictGet_append (xs ys : List (Str × Json)) (k : Str) :
    dictGet (xs ++ ys) k
      = match dictGet xs k with
        | some v => some v
        | none => dictGet ys k := by
  induction xs with
  | nil => simp [dictGet, List.find?]
  | cons kv rest ih =>
    obtain ⟨k0, v0⟩ := kv
    by_cases h0 : k0 = k
    · rw [List.cons_append, dictGet, List.find?_cons_of_pos _ (by simpa using h0)]
      rw [dictGet, List.find?_cons_of_pos _ (by simpa using h0)]
    · rw [List.cons_append, dictGet, List.find?_cons_of_neg _ (by simpa using h0)]
      conv_rhs => rw [dictGet, List.find?_cons_of_neg _ (by simpa using h0)]
      exact ih

theorem dictGet_normNoneKey_ne (kvs : List (Str × Json)) {k k' : Str} (h : k ≠ k') :
    dictGet (normNoneKey kvs k) k' = dictGet kvs k' := by
  unfold normNoneKey
  dsimp only
  split
  · exact dictGet_dictSet_ne kvs _ h
  · rfl

theorem normalizeData_isObj {hard : Str} {present : Bool} {d d2 : Json}
    (h : normalizeData hard present d = some d2) : isObj d2 = true := by
  unfold normalizeData at h
  cases d <;> cases h
  rfl

/-- The `if 'confidence' not in data` step never touches the `url` entry. -/
theorem dictGet_confStep (l : List (Str × Json)) :
    dictGet (if l.any (fun kv => kv.1 = kConfidence) then l
             else l ++ [(kConfidence, Json.num 100)]) kUrl
      = dictGet l kUrl := by
  split
  · rfl
  · rw [dictGet_append]
    cases hE : dictGet l kUrl <;> rfl

theorem normalizeData_url_ne_empty {hard : Str} {present : Bool} {d d2 : Json}
    (hhard : hard ≠ [])
    (h : normalizeData hard present d = some d2) :
    jGet d2 kUrl ≠ some (Json.str []) := by
  unfold normalizeData at h
  cases d <;> cases h
  case obj kvs =>
    intro hurl
    simp only [jGet] at hurl
    rw [dictGet_confStep,
      dictGet_normNoneKey_ne _ (show (kAlternative : Str) ≠ kUrl from by decide),
      dictGet_normNoneKey_ne _ (show (kPromptBody : Str) ≠ kUrl from by decide),
      dictGet_normNoneKey_ne _ (show (kPlatform : Str) ≠ kUrl from by decide)] at hurl
    revert hurl
    split
    · intro hurl
      rw [dictGet_dictSet_self] at hurl
      injection hurl with hurl
      injection hurl with hurl
      revert hurl
      cases present
      · intro hurl
        cases hurl
      · intro hurl
        exact hhard hurl
    · intro hurl
      next htok =>
        apply htok
        have hget : jGetD (Json.obj kvs) kUrl (Json.str []) = Json.str [] := by
          simp [jGetD, jGet, hurl]
        rw [hget]
        rfl

theorem fallback_url_shape (text : Str) :
    ∃ u, jGet (fallback_if_ai_fails text) kUrl = some (Json.str u)
      ∧ u ≠ [] ∧ ∀ c ∈ u, isPyWs c = false := by
  unfold fallback_if_ai_fails
  dsimp only
  split
  · refine ⟨extract_url_from_text text, by rfl, ?_, ?_⟩
    · exact extract_url_ne_nil text
    · intro c hc
      rcases extract_url_shape text with h | h
      · rw [h] at hc
        revert hc
        revert c
        decide
      · exact h.2 c hc
  · refine ⟨if extract_url_from_text text = litAbsent then "#".toList
      else extract_url_from_text text, by rfl, ?_, ?_⟩
    · split
      · decide
      · exact extract_url_ne_nil text
    · intro c hc
      revert hc
      split
      · intro hc
        revert c
        decide
      · intro hc
        rcases extract_url_shape text with h | h
        · next hne => exact absurd h hne
        · exact h.2 c hc

theorem fallback_isObj (text : Str) : isObj (fallback_if_ai_fails text) = true := by
  unfold fallback_if_ai_fails
  dsimp only
  split <;> rfl

theorem cascadeGo_some {hard : Str} {present : Bool} :
    ∀ (rs : List (Option Str)) (k : Nat) (d : Json) (k2 : Nat),
      cascadeGo hard present rs k = (some d, k2) →
      ∃ r, cascadeAttempt hard present r = some d := by
  intro rs
  induction rs with
  | nil =>
    intro k d k2 h
    simp [cascadeGo] at h
  | cons r rs ih =>
    intro k d k2 h
    rw [cascadeGo] at h
    cases ha : cascadeAttempt hard present r with
    | some d0 =>
      rw [ha] at h
      injection h with h1 h2
      injection h1 with h1
      exact ⟨r, by rw [ha, h1]⟩
    | none =>
      rw [ha] at h
      exact ih _ d k2 h

theorem cascadeGo_all_fail {hard : Str} {present : Bool} :
    ∀ (rs : List (Option Str)) (k : Nat),
      (∀ r ∈ rs, cascadeAttempt hard present r = none) →
      cascadeGo hard present rs k = (none, k + rs.length) := by
  intro rs
  induction rs with
  | nil => intro k h; simp [cascadeGo]
  | cons r rs ih =>
    intro k h
    rw [cascadeGo, h r (List.mem_cons_self _ _)]
    rw [ih (k + 1) (fun r2 hr2 => h r2 (List.mem_cons_of_mem _ hr2))]
    simp
    omega

theorem cascadeAttempt_some_normalized {hard : Str} {present : Bool} {r : Option Str} {d : Json}
    (h : cascadeAttempt hard present r = some d) :
    ∃ d0, normalizeData hard present d0 = some d := by
  unfold cascadeAttempt at h
  cases r with
  | none => cases h
  | some raw =>
    dsimp only at h
    cases hp : clean_and_parse_json (pyStrip raw) with
    | none =>
      rw [hp] at h
      cases h
    | some d0 =>
      rw [hp] at h
      dsimp only at h
      by_cases ht : truthy d0 = true
      · rw [if_pos ht] at h
        exact ⟨d0, h⟩
      · rw [if_neg ht] at h
        cases h

theorem heuristic_url (text : Str) {d : Json} (h : heuristic_analysis text = some d) :
    jGet d kUrl = some (Json.str ("#".toList)) := by
  unfold heuristic_analysis at h
  split_ifs at h
  injection h with h
  subst h
  rfl

theorem heuristic_isObj (text : Str) {d : Json} (h : heuristic_analysis text = some d) :
    isObj d = true := by
  unfold heuristic_analysis at h
  split_ifs at h
  injection h with h
  subst h
  rfl

/-- C6 (amended): the `url` of every record leaving the Classification
Orchestrator is never the empty string — the heuristic emits the
placeholder, a backend `url` equal (case-insensitively) to one of the
no-value tokens `''`/`'none'`/`'missing'`/`'#'` is replaced by the
extracted URL or the placeholder, and the fallback emits the extracted
URL or the placeholder. -/
theorem orchestrator_url_never_empty (text : Str) (resps : List (Option Str)) :
    jGet (analyze_content_full_cycle text resps).1 kUrl ≠ some (Json.str []) := by
  unfold analyze_content_full_cycle
  cases hh : heuristic_analysis text with
  | some d =>
    dsimp only
    rw [heuristic_url text hh]
    simp
  | none =>
    dsimp only
    cases hc : cascadeGo (extract_url_from_text text)
        (extract_url_from_text text != litAbsent) resps 0 with
    | mk o k =>
      cases o with
      | some d =>
        dsimp only
        obtain ⟨r, hr⟩ := cascadeGo_some resps 0 d k hc
        obtain ⟨d0, hd0⟩ := cascadeAttempt_some_normalized hr
        exact normalizeData_url_ne_empty (extract_url_ne_nil text) hd0
      | none =>
        dsimp only
        obtain ⟨u, hu, hune, -⟩ := fallback_url_shape text
        rw [hu]
        intro hcontra
        injection hcontra with hcontra
        injection hcontra with hcontra
        exact hune hcontra

/-- C6 counterexample: a backend reply whose `url` field is the bare
whitespace string `" "` passes normalization unchanged (only the exact
tokens `''`, `'none'`, `'missing'`, `'#'` are replaced), so the record
leaves the orchestrator with a whitespace-only url — refuting "never a
bare whitespace string". -/
theorem orchestrator_url_whitespace_cex :
    jGet (analyze_content_full_cycle ("just a note".toList)
        [some ("\x7b\"section\": \"ai\", \"url\": \" \"\x7d".toList)]).1 kUrl
      = some (Json.str (" ".toList))
    ∧ (" ".toList ≠ ([] : Str))
    ∧ (∀ c ∈ (" ".toList : Str), isPyWs c = true) :=
  ⟨by rfl, by decide, by decide⟩

theorem fallback_wellFormed (text : Str) : wellFormedRecord (fallback_if_ai_fails text) := by
  refine ⟨fallback_isObj text, ?_, ?_, ?_, fallback_url_shape text, ?_⟩
  · unfold fallback_if_ai_fails
    dsimp only
    split
    · exact ⟨"dev".toList, rfl⟩
    · exact ⟨"ideas".toList, rfl⟩
  · unfold fallback_if_ai_fails
    dsimp only
    split
    · exact ⟨_, rfl⟩
    · exact ⟨_, rfl⟩
  · unfold fallback_if_ai_fails
    dsimp only
    split
    · exact ⟨_, rfl⟩
    · exact ⟨_, rfl⟩
  · unfold fallback_if_ai_fails
    dsimp only
    split
    · exact ⟨100, rfl⟩
    · exact ⟨50, rfl⟩

/-- C2: the Classification Orchestrator is a total function of the raw
text and the backend outcomes — every exit (heuristic, normalized
cascade success, fallback) is a record (a dict); when the heuristic has
no opinion and every backend call raises or yields unparseable/falsy
output, the result is exactly the Fallback Classifier's record, which is
always well-formed. -/
theorem orchestrator_total (text : Str) (resps : List (Option Str)) :
    isObj (analyze_content_full_cycle text resps).1 = true
    ∧ (heuristic_analysis text = none →
        (∀ r ∈ resps,
          cascadeAttempt (extract_url_from_text text)
            (extract_url_from_text text != litAbsent) r = none) →
        (analyze_content_full_cycle text resps).1 = fallback_if_ai_fails text)
    ∧ wellFormedRecord (fallback_if_ai_fails text) := by
  refine ⟨?_, ?_, fallback_wellFormed text⟩
  · unfold analyze_content_full_cycle
    cases hh : heuristic_analysis text with
    | some d =>
      dsimp only
      exact heuristic_isObj text hh
    | none =>
      dsimp only
      cases hc : cascadeGo (extract_url_from_text text)
          (extract_url_from_text text != litAbsent) resps 0 with
      | mk o k =>
        cases o with
        | some d =>
          dsimp only
          obtain ⟨r, hr⟩ := cascadeGo_some resps 0 d k hc
          obtain ⟨d0, hd0⟩ := cascadeAttempt_some_normalized hr
          exact normalizeData_isObj hd0
        | none =>
          dsimp only
          exact fallback_isObj text
  · intro hh hall
    unfold analyze_content_full_cycle
    rw [hh]
    dsimp only
    rw [cascadeGo_all_fail resps 0 hall]

theorem orchestrator_total_witness :
    (analyze_content_full_cycle ("plain note here".toList)
        [some ("garbage".toList), none]).1
      = fallback_if_ai_fails ("plain note here".toList)
    ∧ wellFormedRecord (fallback_if_ai_fails ("plain note here".toList)) :=
  ⟨(orchestrator_total ("plain note here".toList) [some ("garbage".toList), none]).2.1
      (by rfl)
      (by
        intro r hr
        rcases List.mem_cons.mp hr with h | h
        · subst h; rfl
        · rcases List.mem_cons.mp h with h2 | h2
          · subst h2; rfl
          · simp at h2),
   (orchestrator_total ("plain note here".toList) [some ("garbage".toList), none]).2.2⟩

theorem category_selection_publishes_directly_witness :
    ∃ info : PushInfo,
      process_category_selection ("ab".toList) ("cat_dev".toList)
        ⟨Stage.select_category, some (Json.obj c1kvs)⟩ c1doc = (clearedSession, some info)
      ∧ jGet info.1 kSection = some (Json.str ((pySplitChar '_' ("cat_dev".toList)).getD 1 []))
      ∧ info.2.1 = (sync_push_to_github ("ab".toList) info.1 false c1doc).1
      ∧ info.2.2 = (sync_push_to_github ("ab".toList) info.1 false c1doc).2 :=
  category_selection_publishes_directly ("ab".toList) ("cat_dev".toList) c1kvs c1doc
    (by decide)

/-! ## Heuristic bypass (claim C7) -/

/-- C7 counterexample: the claim says `prompt_body` equals the text from
the earliest marker occurrence to the end; the code strips surrounding
whitespace first, so an input with a trailing newline refutes it. -/
theorem heuristic_prompt_body_strip_cex :
    (heuristic_analysis ("Act as a poet okay\n".toList)).map (fun d => jGet d kPromptBody)
      = some (some (Json.str ("Act as a poet okay".toList)))
    ∧ heurStart ("Act as a poet okay\n".toList) = 0
    ∧ ("Act as a poet okay".toList : Str)
        ≠ ("Act as a poet okay\n".toList).drop (heurStart ("Act as a poet okay\n".toList)) :=
  ⟨by rfl, by rfl, by decide⟩

/-- C7 (amended): any input containing `"Act as a"` is classified by the
heuristic alone — the orchestrator returns the heuristic record and
invokes zero backends; that record has section `prompts`, confidence
100, absent alternative, placeholder url, and `prompt_body` equal to the
whitespace-stripped text from the earliest marker occurrence onward. -/
theorem heuristic_bypass (text : Str) (resps : List (Option Str))
    (h : containsSub ("Act as a".toList) text = true) :
    ∃ d, heuristic_analysis text = some d
      ∧ analyze_content_full_cycle text resps = (d, 0)
      ∧ jGet d kSection = some (Json.str ("prompts".toList))
      ∧ jGet d kConfidence = some (Json.num 100)
      ∧ jGet d kAlternative = some Json.null
      ∧ jGet d kUrl = some (Json.str ("#".toList))
      ∧ jGet d kPromptBody = some (Json.str
          (if heurStart text < text.length then pyStrip (text.drop (heurStart text))
           else text)) := by
  have hany : prompt_markers.any (fun m => containsSub m text) = true := by
    apply List.any_eq_true.mpr
    refine ⟨"Act as a".toList, ?_, h⟩
    decide
  have hh : heuristic_analysis text = some (Json.obj
      [ (kSection, Json.str ("prompts".toList)),
        (kName, Json.str (heurTitle text)),
        (kDesc, Json.str ("System Prompt (Auto-detected)".toList)),
        (kUrl, Json.str ("#".toList)),
        (kPlatform, Json.str []),
        (kPromptBody, Json.str (if heurStart text < text.length
          then pyStrip (text.drop (heurStart text)) else text)),
        (kConfidence, Json.num 100),
        (kAlternative, Json.null) ]) := by
    unfold heuristic_analysis
    rw [if_pos hany]
  refine ⟨_, hh, ?_, rfl, rfl, rfl, rfl, rfl⟩
  unfold analyze_content_full_cycle
  rw [hh]

theorem heuristic_bypass_witness :
    (∃ d, heuristic_analysis scenAText = some d
      ∧ analyze_content_full_cycle scenAText [] = (d, 0)
      ∧ jGet d kSection = some (Json.str ("prompts".toList))
      ∧ jGet d kConfidence = some (Json.num 100)
      ∧ jGet d kAlternative = some Json.null
      ∧ jGet d kUrl = some (Json.str ("#".toList))
      ∧ jGet d kPromptBody = some (Json.str
          (if heurStart scenAText < scenAText.length
           then pyStrip (scenAText.drop (heurStart scenAText)) else scenAText)))
    ∧ ("Act as a".toList).isPrefixOf
        (pyStrip (scenAText.drop (heurStart scenAText))) = true
    ∧ ((handle_classified ("ab".toList) (analyze_content_full_cycle scenAText []).1
        promptsDoc).map (fun p => p.1.stage)) = some Stage.idle :=
  ⟨heuristic_bypass scenAText [] (by decide), by decide, by rfl⟩

/-! ## Renderer escaping (claim C9) -/

theorem containsSub_mid (x b : Str) : containsSub x (x ++ b) = true :=
  containsSub_append_left b (containsSub_self x)

theorem cardStdTpl_has_name (color icon name s desc url : Str) :
    containsSub name (cardStdTpl color icon name s desc url) = true := by
  unfold cardStdTpl
  refine containsSub_append_left _ ?_
  refine containsSub_append_left _ ?_
  refine containsSub_append_left _ ?_
  refine containsSub_append_left _ ?_
  refine containsSub_append_left _ ?_
  refine containsSub_append_left _ ?_
  refine containsSub_append_left _ ?_
  refine containsSub_append_left _ ?_
  refine containsSub_append_left _ ?_
  refine containsSub_append_left _ ?_
  refine containsSub_append_left _ ?_
  refine containsSub_append_left _ ?_
  refine containsSub_append_left _ ?_
  exact containsSub_append_right _ (containsSub_self _)

theorem cardStdTpl_has_desc (color icon name s desc url : Str) :
    containsSub desc (cardStdTpl color icon name s desc url) = true := by
  unfold cardStdTpl
  refine containsSub_append_left _ ?_
  refine containsSub_append_left _ ?_
  refine containsSub_append_left _ ?_
  refine containsSub_append_left _ ?_
  refine containsSub_append_left _ ?_
  exact containsSub_append_right _ (containsSub_self _)

theorem cardStdTpl_has_url (color icon name s desc url : Str) :
    containsSub url (cardStdTpl color icon name s desc url) = true := by
  unfold cardStdTpl
  refine containsSub_append_left _ ?_
  refine containsSub_append_left _ ?_
  refine containsSub_append_left _ ?_
  exact containsSub_append_right _ (containsSub_self _)

theorem cardApkTpl_has_name (color icon name platform desc url : Str) :
    containsSub name (cardApkTpl color icon name platform desc url) = true := by
  unfold cardApkTpl
  refine containsSub_append_left _ ?_
  refine containsSub_append_left _ ?_
  refine containsSub_append_left _ ?_
  refine containsSub_append_left _ ?_
  refine containsSub_append_left _ ?_
  refine containsSub_append_left _ ?_
  refine containsSub_append_left _ ?_
  refine containsSub_append_left _ ?_
  refine containsSub_append_left _ ?_
  refine containsSub_append_left _ ?_
  refine containsSub_append_left _ ?_
  exact containsSub_append_right _ (containsSub_self _)

theorem cardApkTpl_has_platform (color icon name platform desc url : Str) :
    containsSub platform (cardApkTpl color icon name platform desc url) = true := by
  unfold cardApkTpl
  refine containsSub_append_left _ ?_
  refine containsSub_append_left _ ?_
  refine containsSub_append_left _ ?_
  refine containsSub_append_left _ ?_
  refine containsSub_append_left _ ?_
  refine containsSub_append_left _ ?_
  refine containsSub_append_left _ ?_
  exact containsSub_append_right _ (containsSub_self _)

theorem cardApkTpl_has_desc (color icon name platform desc url : Str) :
    containsSub desc (cardApkTpl color icon name platform desc url) = true := by
  unfold cardApkTpl
  refine containsSub_append_left _ ?_
  refine containsSub_append_left _ ?_
  refine containsSub_append_left _ ?_
  refine containsSub_append_left _ ?_
  refine containsSub_append_left _ ?_
  exact containsSub_append_right _ (containsSub_self _)

theorem cardApkTpl_has_url (color icon name platform desc url : Str) :
    containsSub url (cardApkTpl color icon name platform desc url) = true := by
  unfold cardApkTpl
  refine containsSub_append_left _ ?_
  refine containsSub_append_left _ ?_
  refine containsSub_append_left _ ?_
  exact containsSub_append_right _ (containsSub_self _)

theorem cardPromptsTpl_has_name (color icon name p_id p_body desc : Str) :
    containsSub name (cardPromptsTpl color icon name p_id p_body desc) = true := by
  unfold cardPromptsTpl
  refine containsSub_append_left _ ?_
  refine containsSub_append_left _ ?_
  refine containsSub_append_left _ ?_
  refine containsSub_append_left _ ?_
  refine containsSub_append_left _ ?_
  refine containsSub_append_left _ ?_
  refine containsSub_append_left _ ?_
  refine containsSub_append_left _ ?_
  refine containsSub_append_left _ ?_
  refine containsSub_append_left _ ?_
  refine containsSub_append_left _ ?_
  exact containsSub_append_right _ (containsSub_self _)

theorem cardPromptsTpl_has_p_body (color icon name p_id p_body desc : Str) :
    containsSub p_body (cardPromptsTpl color icon name p_id p_body desc) = true := by
  unfold cardPromptsTpl
  refine containsSub_append_left _ ?_
  refine containsSub_append_left _ ?_
  refine containsSub_append_left _ ?_
  exact containsSub_append_right _ (containsSub_self _)

theorem cardPromptsTpl_has_desc (color icon name p_id p_body desc : Str) :
    containsSub desc (cardPromptsTpl color icon name p_id p_body desc) = true := by
  unfold cardPromptsTpl
  refine containsSub_append_left _ ?_
  exact containsSub_append_right _ (containsSub_self _)

set_option maxHeartbeats 2000000 in
/-- C9 (amended): for every record, the renderer inserts the escaped
`name`/`desc` (and `platform` in the mobile template), the raw `url`
un-escaped, and `prompt_body` verbatim with the closing raw-text tag
stripped. -/
theorem renderer_escapes (uuidHex : Str) (data : Json) :
    rendererEscapeSpec uuidHex data := by
  unfold rendererEscapeSpec generate_card_html
  dsimp only
  split_ifs
  · exact ⟨cardPromptsTpl_has_name _ _ _ _ _ _, cardPromptsTpl_has_desc _ _ _ _ _ _,
      cardPromptsTpl_has_p_body _ _ _ _ _ _⟩
  · exact ⟨cardApkTpl_has_name _ _ _ _ _ _, cardApkTpl_has_desc _ _ _ _ _ _,
      cardApkTpl_has_platform _ _ _ _ _ _, cardApkTpl_has_url _ _ _ _ _ _⟩
  · exact ⟨cardStdTpl_has_name _ _ _ _ _ _, cardStdTpl_has_desc _ _ _ _ _ _,
      cardStdTpl_has_url _ _ _ _ _ _⟩

set_option maxRecDepth 20000 in
set_option maxHeartbeats 4000000 in
/-- C9 counterexample: a `url` containing a double quote is inserted raw
into the markup — its HTML-escaped form does not occur in the output, so
the renderer does not escape `url`. -/
theorem renderer_url_unescaped_cex :
    containsSub ("a\"b".toList) (generate_card_html ("u0".toList) c9rec) = true
    ∧ containsSub (htmlEscape ("a\"b".toList)) (generate_card_html ("u0".toList) c9rec) = false
    ∧ htmlEscape ("a\"b".toList) ≠ ("a\"b".toList) := by
  refine ⟨by decide, by decide, by decide⟩

theorem escJsonChar_safe {c : Char} (h : safeChar c = true) : escJsonChar c = [c] := by
  simp only [safeChar, Bool.and_eq_true, decide_eq_true_eq] at h
  obtain ⟨⟨⟨h1, h2⟩, h3⟩, h4⟩ := h
  have hne : ∀ d : Char, d.toNat < 32 → c ≠ d := by
    intro d hd he
    rw [he] at h1
    omega
  unfold escJsonChar
  rw [if_neg h3, if_neg h4,
    if_neg (hne '\n' (by decide)),
    if_neg (hne '\x0d' (by decide)),
    if_neg (hne '\t' (by decide)),
    if_neg (hne '\x08' (by decide)),
    if_neg (hne '\x0c' (by decide)),
    if_neg (by simp only [Bool.or_eq_true, decide_eq_true_eq, not_or, not_lt, not_le]; omega)]

theorem flatMap_esc_safe {s : Str} (h : safeStr s = true) : s.flatMap escJsonChar = s := by
  induction s with
  | nil => rfl
  | cons c cs ih =>
    simp only [safeStr, List.all_cons, Bool.and_eq_true] at h
    show escJsonChar c ++ cs.flatMap escJsonChar = c :: cs
    rw [escJsonChar_safe h.1, ih h.2]
    rfl

theorem parseStrRest_roundtrip {s : Str} (h : safeStr s = true) (rest : Str) :
    parseStrRest false '"' (s ++ '"' :: rest) = some (s, rest) := by
  induction s with
  | nil =>
    show parseStrRest false '"' ('"' :: rest) = _
    unfold parseStrRest
    rw [if_pos rfl]
  | cons c cs ih =>
    simp only [safeStr, List.all_cons, Bool.and_eq_true] at h
    have h1 := h.1
    simp only [safeChar, Bool.and_eq_true, decide_eq_true_eq] at h1
    obtain ⟨⟨⟨hge, hle⟩, hq⟩, hbs⟩ := h1
    show parseStrRest false '"' (c :: (cs ++ '"' :: rest)) = _
    unfold parseStrRest
    rw [if_neg hq, if_neg hbs,
      if_neg (by simp only [Bool.not_false, Bool.true_and, decide_eq_true_eq]; omega)]
    rw [ih h.2]
    rfl

theorem digitChar_isDigit {m : Nat} (hm : m < 10) : isDigitCh (digitChar m) = true := by
  interval_cases m <;> decide

theorem digitChar_val {m : Nat} (hm : m < 10) : (digitChar m).toNat - 48 = m := by
  interval_cases m <;> decide

theorem natDigitsGo_spec :
    ∀ fuel n, n < fuel →
      natDigitsGo fuel n ≠ []
      ∧ (∀ c ∈ natDigitsGo fuel n, isDigitCh c = true)
      ∧ digitsVal (natDigitsGo fuel n) = n := by
  intro fuel
  induction fuel with
  | zero => intro n h; omega
  | succ fuel ih =>
    intro n h
    rw [natDigitsGo]
    by_cases h10 : n < 10
    · rw [if_pos h10]
      refine ⟨by simp, ?_, ?_⟩
      · intro c hc
        simp only [List.mem_singleton] at hc
        subst hc
        exact digitChar_isDigit h10
      · show digitsVal [digitChar n] = n
        unfold digitsVal
        simp only [List.foldl_cons, List.foldl_nil, Nat.zero_mul, Nat.zero_add]
        exact digitChar_val h10
    · rw [if_neg h10]
      have hdivlt : n / 10 < n := Nat.div_lt_self (by omega) (by norm_num)
      obtain ⟨hne, hdig, hval⟩ := ih (n / 10) (by omega)
      refine ⟨by simp, ?_, ?_⟩
      · intro c hc
        rcases List.mem_append.mp hc with hc | hc
        · exact hdig c hc
        · simp only [List.mem_singleton] at hc
          subst hc
          exact digitChar_isDigit (Nat.mod_lt _ (by norm_num))
      · show digitsVal (natDigitsGo fuel (n / 10) ++ [digitChar (n % 10)]) = n
        unfold digitsVal at hval ⊢
        rw [List.foldl_append]
        rw [hval]
        simp only [List.foldl_cons, List.foldl_nil]
        rw [digitChar_val (Nat.mod_lt _ (by norm_num))]
        omega

theorem natToDigits_spec (n : Nat) :
    natToDigits n ≠ []
    ∧ (∀ c ∈ natToDigits n, isDigitCh c = true)
    ∧ digitsVal (natToDigits n) = n :=
  natDigitsGo_spec (n + 1) n (Nat.lt_succ_self n)

theorem takeWhile_digits_append {A rest : Str} (hA : ∀ c ∈ A, isDigitCh c = true)
    (hb : numBoundary rest = true) :
    (A ++ rest).takeWhile isDigitCh = A := by
  induction A with
  | nil =>
    cases rest with
    | nil => rfl
    | cons c r =>
      simp only [numBoundary, Bool.and_eq_true, Bool.not_eq_true'] at hb
      simp [List.takeWhile_cons, hb.1.1.1]
  | cons a A ih =>
    rw [List.cons_append, List.takeWhile_cons, hA a (List.mem_cons_self _ _)]
    rw [ih (fun c hc => hA c (List.mem_cons_of_mem _ hc))]
    simp

theorem parseNatNum_roundtrip {n : Nat} {rest : Str} (hb : numBoundary rest = true) :
    parseNatNum (natToDigits n ++ rest) = some (n, rest) := by
  obtain ⟨hne, hdig, hval⟩ := natToDigits_spec n
  unfold parseNatNum
  dsimp only
  rw [takeWhile_digits_append hdig hb]
  rw [if_neg (by simpa [List.isEmpty_iff] using hne)]
  rw [List.drop_left]
  cases rest with
  | nil =>
    rw [hval]
  | cons c r =>
    simp only [numBoundary, Bool.and_eq_true, Bool.not_eq_true'] at hb
    obtain ⟨⟨⟨-, hdot⟩, he⟩, hE⟩ := hb
    rw [hval]
    simp only [decide_eq_false_iff_not] at hdot he hE
    split
    · next heq =>
        injection heq with h1 h2
        exact absurd h1 hdot
    · next heq =>
        injection heq with h1 h2
        exact absurd h1 he
    · next heq =>
        injection heq with h1 h2
        exact absurd h1 hE
    · rfl

theorem isDigitCh_ne_dash {c : Char} (h : isDigitCh c = true) : c ≠ '-' := by
  intro he
  subst he
  exact absurd h (by decide)

theorem sepBoundary_numBoundary {rest : Str} (h : sepBoundary rest = true) :
    numBoundary rest = true := by
  cases rest with
  | nil => rfl
  | cons c r =>
    simp only [sepBoundary, Bool.or_eq_true, decide_eq_true_eq] at h
    rcases h with (h | h) | h <;> subst h <;> rfl

theorem parseNumber_roundtrip {i : Int} {rest : Str} (hb : numBoundary rest = true) :
    parseNumber (intToDigits i ++ rest) = some (Json.num i, rest) := by
  unfold intToDigits
  split
  · next hneg =>
    rw [List.cons_append]
    unfold parseNumber
    split
    · next r heq =>
      injection heq with _ h2
      subst h2
      rw [parseNatNum_roundtrip hb]
      have hti : (((-i).toNat : Int)) = -i := Int.toNat_of_nonneg (by omega)
      simp only [Option.map]
      rw [hti]
      simp
    · next hno =>
      exact absurd rfl (hno _)
  · next hpos =>
    obtain ⟨hne, hdig, -⟩ := natToDigits_spec i.toNat
    cases hD : natToDigits i.toNat with
    | nil => exact absurd hD hne
    | cons c cs =>
      have hc : c ≠ '-' :=
        isDigitCh_ne_dash (hdig c (by rw [hD]; exact List.mem_cons_self _ _))
      rw [List.cons_append]
      unfold parseNumber
      split
      · next r heq =>
        injection heq with h1 _
        exact absurd h1 hc
      · rw [← List.cons_append, ← hD]
        rw [parseNatNum_roundtrip hb]
        have hti : ((i.toNat : Int)) = i := Int.toNat_of_nonneg (by omega)
        simp only [Option.map]
        rw [hti]

/-- `List.isPrefixOf` with an exhausted needle succeeds. -/
theorem nil_isPrefixOf (l : List Char) : ([] : List Char).isPrefixOf l = true := by
  cases l <;> rfl

/-- A needle whose head mismatches is not a prefix. -/
theorem isPrefixOf_cons_neq {a b : Char} (h : a ≠ b) (as bs : List Char) :
    (a :: as).isPrefixOf (b :: bs) = false := by
  show ((a == b) && as.isPrefixOf bs) = false
  rw [beq_eq_false_iff_ne.mpr h]
  rfl

theorem skipJWs_colon (X : Str) : skipJWs (':' :: X) = ':' :: X := rfl

theorem skipJWs_comma (X : Str) : skipJWs (',' :: X) = ',' :: X := rfl

theorem skipJWs_close (X : Str) : skipJWs ('\x7d' :: X) = '\x7d' :: X := rfl

theorem skipJWs_quote (X : Str) : skipJWs ('"' :: X) = '"' :: X := rfl

theorem skipJWs_space (X : Str) : skipJWs (' ' :: X) = skipJWs X := rfl

theorem skipJWs_cons_of {c : Char} (X : Str) (h : jsonWsChar c = false) :
    skipJWs (c :: X) = c :: X := by
  show (c :: X).dropWhile jsonWsChar = c :: X
  rw [List.dropWhile_cons, h]
  rfl

/-- Leading JSON whitespace is transparent to `parseVal`. -/
theorem parseVal_space (f : Nat) (X : Str) :
    parseVal false (f + 1) (' ' :: X) = parseVal false (f + 1) X := rfl

/-- Entering an object whose first member starts with a quote. -/
theorem parseVal_obj_quote (Y : Str) (fuel : Nat) :
    parseVal false (fuel + 1) ('\x7b' :: '"' :: Y) = parseMembers false fuel ('"' :: Y) [] := rfl

/-- A quoted string at the head of the input. -/
theorem parseVal_quote (X : Str) (fuel : Nat) :
    parseVal false (fuel + 1) ('"' :: X) =
      match parseStrRest false '"' X with
      | some (cs, r2) => some (Json.str cs, r2)
      | none => none := rfl

/-- One `parseMembers` step at a quoted key. -/
theorem parseMembers_quote_step (f : Nat) (X : Str) (acc : List (Str × Json)) :
    parseMembers false (f + 1) ('"' :: X) acc =
      match parseStrRest false '"' X with
      | none => none
      | some (k, r1) =>
        match skipJWs r1 with
        | ':' :: r3 =>
          match parseVal false f r3 with
          | none => none
          | some (v, r4) =>
            match skipJWs r4 with
            | ',' :: r6 => parseMembers false f (skipJWs r6) (acc ++ [(k, v)])
            | '\x7d' :: r6 => some (Json.obj (buildDict (acc ++ [(k, v)])), r6)
            | _ => none
        | _ => none := rfl

/-- `parseVal` at a head that is none of ws, brace, bracket or quote falls
through to the literal checks. -/
theorem parseVal_lits {c : Char} (X : Str) (fuel : Nat)
    (h1 : ¬ c = '\x7b') (h2 : ¬ c = '[') (h3 : ¬ c = '"') (h4 : jsonWsChar c = false) :
    parseVal false (fuel + 1) (c :: X) =
      if litTrue.isPrefixOf (c :: X) then some (Json.bool true, (c :: X).drop 4)
      else if litFalse.isPrefixOf (c :: X) then some (Json.bool false, (c :: X).drop 5)
      else if litNull.isPrefixOf (c :: X) then some (Json.null, (c :: X).drop 4)
      else parseNumber (c :: X) := by
  unfold parseVal
  rw [skipJWs_cons_of X h4]
  dsimp only
  rw [if_neg h1, if_neg h2, if_neg h3, if_neg (by simp), if_neg (by simp)]

theorem parseVal_null (rest : Str) (fuel : Nat) :
    parseVal false (fuel + 1) (jsonDumps Json.null ++ rest) = some (Json.null, rest) := by
  show parseVal false (fuel + 1) ('n' :: 'u' :: 'l' :: 'l' :: rest) = some (Json.null, rest)
  rw [parseVal_lits _ _ (by decide) (by decide) (by decide) (by decide)]
  have hT : litTrue.isPrefixOf ('n' :: 'u' :: 'l' :: 'l' :: rest) = false := rfl
  have hF : litFalse.isPrefixOf ('n' :: 'u' :: 'l' :: 'l' :: rest) = false := rfl
  have hN : litNull.isPrefixOf ('n' :: 'u' :: 'l' :: 'l' :: rest) = true := nil_isPrefixOf rest
  rw [hT, hF, hN]
  simp

theorem parseVal_bool (b : Bool) (rest : Str) (fuel : Nat) :
    parseVal false (fuel + 1) (jsonDumps (Json.bool b) ++ rest) = some (Json.bool b, rest) := by
  cases b with
  | true =>
    show parseVal false (fuel + 1) ('t' :: 'r' :: 'u' :: 'e' :: rest) = some (Json.bool true, rest)
    rw [parseVal_lits _ _ (by decide) (by decide) (by decide) (by decide)]
    have hT : litTrue.isPrefixOf ('t' :: 'r' :: 'u' :: 'e' :: rest) = true := nil_isPrefixOf rest
    rw [hT]
    simp
  | false =>
    show parseVal false (fuel + 1) ('f' :: 'a' :: 'l' :: 's' :: 'e' :: rest)
        = some (Json.bool false, rest)
    rw [parseVal_lits _ _ (by decide) (by decide) (by decide) (by decide)]
    have hT : litTrue.isPrefixOf ('f' :: 'a' :: 'l' :: 's' :: 'e' :: rest) = false := rfl
    have hF : litFalse.isPrefixOf ('f' :: 'a' :: 'l' :: 's' :: 'e' :: rest) = true :=
      nil_isPrefixOf rest
    rw [hT, hF]
    simp

theorem parseVal_num {i : Int} {rest : Str} (hb : numBoundary rest = true) (fuel : Nat) :
    parseVal false (fuel + 1) (jsonDumps (Json.num i) ++ rest) = some (Json.num i, rest) := by
  have hhead : ∃ c cs, intToDigits i = c :: cs ∧ (isDigitCh c = true ∨ c = '-') := by
    unfold intToDigits
    split
    · exact ⟨'-', _, rfl, Or.inr rfl⟩
    · obtain ⟨hne, hdig, -⟩ := natToDigits_spec i.toNat
      cases hD : natToDigits i.toNat with
      | nil => exact absurd hD hne
      | cons c cs =>
        exact ⟨c, cs, rfl, Or.inl (hdig c (by rw [hD]; exact List.mem_cons_self _ _))⟩
  obtain ⟨c, cs, hD, hc⟩ := hhead
  have hdd : ∀ d : Char, isDigitCh d = false → ¬ d = '-' → ¬ c = d := by
    rcases hc with hc | hc
    · intro d hdf _ he
      rw [he] at hc
      simp [hc] at hdf
    · intro d _ hdneg he
      rw [hc] at he
      exact hdneg he.symm
  have hws : jsonWsChar c = false := by
    have hsp := hdd ' ' (by decide) (by decide)
    have hht := hdd '\t' (by decide) (by decide)
    have hnl := hdd '\n' (by decide) (by decide)
    have hcr := hdd '\x0d' (by decide) (by decide)
    unfold jsonWsChar
    simp [hsp, hht, hnl, hcr]
  show parseVal false (fuel + 1) (intToDigits i ++ rest) = some (Json.num i, rest)
  rw [hD, List.cons_append]
  rw [parseVal_lits _ _ (hdd '\x7b' (by decide) (by decide)) (hdd '[' (by decide) (by decide))
    (hdd '"' (by decide) (by decide)) hws]
  have hT : litTrue.isPrefixOf (c :: (cs ++ rest)) = false :=
    isPrefixOf_cons_neq (fun he => hdd 't' (by decide) (by decide) he.symm) _ _
  have hF : litFalse.isPrefixOf (c :: (cs ++ rest)) = false :=
    isPrefixOf_cons_neq (fun he => hdd 'f' (by decide) (by decide) he.symm) _ _
  have hN : litNull.isPrefixOf (c :: (cs ++ rest)) = false :=
    isPrefixOf_cons_neq (fun he => hdd 'n' (by decide) (by decide) he.symm) _ _
  rw [hT, hF, hN]
  simp only [Bool.false_eq_true, if_false]
  rw [← List.cons_append, ← hD]
  exact parseNumber_roundtrip hb

theorem parseVal_str {s : Str} (h : safeStr s = true) (rest : Str) (fuel : Nat) :
    parseVal false (fuel + 1) (jsonDumps (Json.str s) ++ rest) = some (Json.str s, rest) := by
  have hsh : jsonDumps (Json.str s) ++ rest = '"' :: (s ++ '"' :: rest) := by
    show (('"' :: s.flatMap escJsonChar) ++ ['"']) ++ rest = _
    rw [flatMap_esc_safe h]
    simp
  rw [hsh, parseVal_quote, parseStrRest_roundtrip h]

/-- Any flat safe value renders to text that parses back to itself. -/
theorem parseVal_flat {v : Json} (hv : flatValOk v = true) {rest : Str}
    (hb : numBoundary rest = true) (fuel : Nat) :
    parseVal false (fuel + 1) (jsonDumps v ++ rest) = some (v, rest) := by
  cases v with
  | null => exact parseVal_null rest fuel
  | bool b => exact parseVal_bool b rest fuel
  | num i => exact parseVal_num hb fuel
  | str s => exact parseVal_str hv rest fuel
  | arr xs => exact absurd hv (by simp [flatValOk])
  | obj kvs => exact absurd hv (by simp [flatValOk])

/-- One member of a rendered object: quoted safe key, `": "`, then a value. -/
theorem parseMembers_member (f : Nat) {k : Str} (hk : safeStr k = true) (B : Str)
    (acc : List (Str × Json)) :
    parseMembers false (f + 1) ('"' :: (k ++ '"' :: ':' :: ' ' :: B)) acc =
      match parseVal false f (' ' :: B) with
      | none => none
      | some (v, r4) =>
        match skipJWs r4 with
        | ',' :: r6 => parseMembers false f (skipJWs r6) (acc ++ [(k, v)])
        | '\x7d' :: r6 => some (Json.obj (buildDict (acc ++ [(k, v)])), r6)
        | _ => none := by
  rw [parseMembers_quote_step, parseStrRest_roundtrip hk]
  rfl

/-- A rendered member list starts with a double quote. -/
theorem joinSep_dumpsKV_head (k2 : Str) (v2 : Json) (kvs : List (Str × Json)) :
    ∃ Y, joinSep (", ".toList) (jsonDumpsKV ((k2, v2) :: kvs)) = '"' :: Y := by
  cases kvs with
  | nil => exact ⟨_, rfl⟩
  | cons kv kvs => exact ⟨_, rfl⟩

/-- Parsing back the rendered members of a flat safe record accumulates
exactly the record entries. -/
theorem parseMembers_roundtrip :
    ∀ (kvs : List (Str × Json)) (fuel : Nat) (acc : List (Str × Json)) (rest : Str),
      kvs ≠ [] →
      kvs.all (fun kv => safeStr kv.1 && flatValOk kv.2) = true →
      kvs.length < fuel →
      parseMembers false fuel
          (joinSep (", ".toList) (jsonDumpsKV kvs) ++ '\x7d' :: rest) acc
        = some (Json.obj (buildDict (acc ++ kvs)), rest) := by
  intro kvs
  induction kvs with
  | nil => intro _ _ _ hne _ _; exact absurd rfl hne
  | cons kv kvs2 ih =>
    intro fuel acc rest _ hall hlen
    obtain ⟨k, v⟩ := kv
    simp only [List.all_cons, Bool.and_eq_true] at hall
    obtain ⟨⟨hk, hv⟩, hall2⟩ := hall
    simp only [List.length_cons] at hlen
    cases fuel with
    | zero => omega
    | succ f =>
    cases f with
    | zero => omega
    | succ f2 =>
    cases kvs2 with
    | nil =>
      have htext : joinSep (", ".toList) (jsonDumpsKV [(k, v)]) ++ '\x7d' :: rest
          = '"' :: (k ++ '"' :: ':' :: ' ' :: (jsonDumps v ++ '\x7d' :: rest)) := by
        show ((('"' :: k.flatMap escJsonChar) ++ ['"']) ++ (':' :: ' ' :: jsonDumps v))
            ++ '\x7d' :: rest = _
        rw [flatMap_esc_safe hk]
        simp
      rw [htext, parseMembers_member (f2 + 1) hk _ acc, parseVal_space,
        parseVal_flat hv (by rfl) f2]
      rfl
    | cons kv2 kvs3 =>
      obtain ⟨k2, v2⟩ := kv2
      obtain ⟨Y, hY⟩ := joinSep_dumpsKV_head k2 v2 kvs3
      have htext : joinSep (", ".toList) (jsonDumpsKV ((k, v) :: (k2, v2) :: kvs3))
            ++ '\x7d' :: rest
          = '"' :: (k ++ '"' :: ':' :: ' ' :: (jsonDumps v ++ ',' :: ' ' ::
              (joinSep (", ".toList) (jsonDumpsKV ((k2, v2) :: kvs3)) ++ '\x7d' :: rest))) := by
        rw [jsonDumpsKV, jsonDumpsKV, joinSep, ← jsonDumpsKV, jsonStrLit, flatMap_esc_safe hk]
        have hsep : (", ".toList : Str) = ',' :: ' ' :: [] := rfl
        rw [hsep]
        simp
      rw [htext, parseMembers_member (f2 + 1) hk _ acc, parseVal_space,
        parseVal_flat hv (by rfl) f2]
      show parseMembers false (f2 + 1)
          (skipJWs (' ' :: (joinSep (", ".toList) (jsonDumpsKV ((k2, v2) :: kvs3))
            ++ '\x7d' :: rest))) (acc ++ [(k, v)]) = _
      rw [skipJWs_space, hY, List.cons_append, skipJWs_quote, ← List.cons_append, ← hY]
      rw [ih (f2 + 1) (acc ++ [(k, v)]) rest (by simp) hall2
        (by simp only [List.length_cons] at hlen ⊢; omega)]
      rw [List.append_assoc]
      rfl

/-- `d[k] = v` on a dict without `k` appends. -/
theorem dictSet_fresh (k : Str) (v : Json) :
    ∀ d : List (Str × Json), (∀ kv ∈ d, ¬ kv.1 = k) → dictSet d k v = d ++ [(k, v)] := by
  intro d
  induction d with
  | nil => intro _; rfl
  | cons kv0 d ih =>
    intro h
    obtain ⟨k0, v0⟩ := kv0
    show dictSet ((k0, v0) :: d) k v = _
    unfold dictSet
    rw [if_neg (h (k0, v0) (List.mem_cons_self _ _))]
    rw [ih (fun kv hkv => h kv (List.mem_cons_of_mem _ hkv))]
    rfl

theorem buildDict_fold :
    ∀ (kvs d : List (Str × Json)), nodupKeys kvs = true →
      (∀ kv ∈ kvs, ∀ kv2 ∈ d, ¬ kv2.1 = kv.1) →
      kvs.foldl (fun d kv => dictSet d kv.1 kv.2) d = d ++ kvs := by
  intro kvs
  induction kvs with
  | nil => intro d _ _; simp
  | cons kv kvs ih =>
    intro d hnd hdisj
    obtain ⟨k, v⟩ := kv
    simp only [nodupKeys, Bool.and_eq_true, Bool.not_eq_true'] at hnd
    have hfr : ∀ kv2 ∈ kvs, ¬ kv2.1 = k := by
      intro kv2 hkv2 he
      have h1 := hnd.1
      rw [List.any_eq_false] at h1
      have h2 := h1 kv2 hkv2
      rw [he] at h2
      simp at h2
    rw [List.foldl_cons]
    dsimp only
    rw [dictSet_fresh k v d (fun kv2 hkv2 => hdisj (k, v) (List.mem_cons_self _ _) kv2 hkv2)]
    rw [ih (d ++ [(k, v)]) hnd.2 (by
      intro kv2 hkv2 kv3 hkv3
      rcases List.mem_append.mp hkv3 with h3 | h3
      · exact hdisj kv2 (List.mem_cons_of_mem _ hkv2) kv3 h3
      · simp only [List.mem_singleton] at h3
        subst h3
        intro he
        exact hfr kv2 hkv2 he.symm)]
    simp

/-- A duplicate-free association list is a fixed point of Python dict
construction. -/
theorem buildDict_nodup {kvs : List (Str × Json)} (h : nodupKeys kvs = true) :
    buildDict kvs = kvs := by
  unfold buildDict
  rw [buildDict_fold kvs [] h (fun kv _ kv2 hkv2 => absurd hkv2 (List.not_mem_nil _))]
  simp

theorem joinSep_len_ge (sep : Str) :
    ∀ xs : List Str, (∀ x ∈ xs, 1 ≤ x.length) → xs.length ≤ (joinSep sep xs).length := by
  intro xs
  induction xs with
  | nil => intro _; simp [joinSep]
  | cons x xs ih =>
    intro h
    cases xs with
    | nil => simpa [joinSep] using h x (List.mem_cons_self _ _)
    | cons y ys =>
      have h1 := h x (List.mem_cons_self _ _)
      have h2 := ih (fun z hz => h z (List.mem_cons_of_mem _ hz))
      rw [joinSep]
      simp only [List.length_cons, List.length_append]
      simp only [List.length_cons] at h2
      omega

theorem jsonDumpsKV_item_len :
    ∀ kvs : List (Str × Json), ∀ x ∈ jsonDumpsKV kvs, 1 ≤ x.length := by
  intro kvs
  induction kvs with
  | nil =>
    intro x hx
    simp only [jsonDumpsKV] at hx
    cases hx
  | cons kv kvs ih =>
    intro x hx
    obtain ⟨k, v⟩ := kv
    rw [jsonDumpsKV] at hx
    rcases List.mem_cons.mp hx with hx | hx
    · subst hx
      simp only [List.length_append, List.length_cons]
      omega
    · exact ih x hx

theorem jsonDumpsKV_len : ∀ kvs : List (Str × Json), (jsonDumpsKV kvs).length = kvs.length := by
  intro kvs
  induction kvs with
  | nil => rfl
  | cons kv kvs ih =>
    obtain ⟨k, v⟩ := kv
    rw [jsonDumpsKV]
    simp [ih]

/-- `json.loads` inverts `json.dumps` on flat safe records. -/
theorem jsonLoads_dumps {kvs : List (Str × Json)} (h : fragKVs kvs = true) :
    jsonLoads (jsonDumps (Json.obj kvs)) = some (Json.obj kvs) := by
  cases kvs with
  | nil => rfl
  | cons kv kvs2 =>
    obtain ⟨k, v⟩ := kv
    unfold fragKVs at h
    rw [Bool.and_eq_true] at h
    obtain ⟨hall, hnd⟩ := h
    obtain ⟨Y, hY⟩ := joinSep_dumpsKV_head k v kvs2
    have hshape : jsonDumps (Json.obj ((k, v) :: kvs2))
        = '\x7b' :: (joinSep (", ".toList) (jsonDumpsKV ((k, v) :: kvs2)) ++ ['\x7d']) := rfl
    have hlen : ((k, v) :: kvs2).length
        < (joinSep (", ".toList) (jsonDumpsKV ((k, v) :: kvs2)) ++ ['\x7d']).length + 1 := by
      have h1 := joinSep_len_ge (", ".toList) (jsonDumpsKV ((k, v) :: kvs2))
        (jsonDumpsKV_item_len _)
      rw [jsonDumpsKV_len] at h1
      simp only [List.length_append, List.length_cons, List.length_nil]
      simp only [List.length_cons] at h1
      omega
    unfold jsonLoads
    rw [hshape]
    simp only [List.length_cons]
    rw [hY, List.cons_append, parseVal_obj_quote, ← List.cons_append, ← hY]
    rw [parseMembers_roundtrip ((k, v) :: kvs2) _ [] [] (by simp) hall hlen]
    simp only [List.nil_append]
    rw [buildDict_nodup hnd]
    rfl

/-- A rendered record has no surrounding whitespace to strip. -/
theorem pyStrip_brace_close (X : Str) :
    pyStrip ('\x7b' :: (X ++ ['\x7d'])) = '\x7b' :: (X ++ ['\x7d']) := by
  unfold pyStrip pyLStrip pyRStrip
  rw [List.dropWhile_cons, if_neg (by decide)]
  have hrev : ('\x7b' :: (X ++ ['\x7d'])).reverse = '\x7d' :: (X.reverse ++ ['\x7b']) := by
    simp
  rw [hrev, List.dropWhile_cons, if_neg (by decide), ← hrev, List.reverse_reverse]

theorem findSub_brace (T : Str) : findSub ['\x7b'] ('\x7b' :: T) = some 0 := by
  have hp : (['\x7b'] : Str).isPrefixOf ('\x7b' :: T) = true := by
    show (('\x7b' == '\x7b') && ([] : List Char).isPrefixOf T) = true
    rw [nil_isPrefixOf]
    rfl
  unfold findSub
  rw [if_pos hp]

theorem rfindChar_brace_close (X : Str) :
    rfindChar '\x7d' ('\x7b' :: (X ++ ['\x7d'])) = some (X.length + 1) := by
  unfold rfindChar
  have hrev : ('\x7b' :: (X ++ ['\x7d'])).reverse = '\x7d' :: (X.reverse ++ ['\x7b']) := by
    simp
  rw [hrev]
  have hf : findSub ['\x7d'] ('\x7d' :: (X.reverse ++ ['\x7b'])) = some 0 := by
    have hp : (['\x7d'] : Str).isPrefixOf ('\x7d' :: (X.reverse ++ ['\x7b'])) = true := by
      show (('\x7d' == '\x7d') && ([] : List Char).isPrefixOf (X.reverse ++ ['\x7b'])) = true
      rw [nil_isPrefixOf]
      rfl
    unfold findSub
    rw [if_pos hp]
  rw [hf]
  simp

theorem pySlice_brace_close (X : Str) :
    pySlice 0 (X.length + 1 + 1) ('\x7b' :: (X ++ ['\x7d'])) = '\x7b' :: (X ++ ['\x7d']) := by
  unfold pySlice
  rw [List.drop_zero, Nat.sub_zero]
  rw [List.take_of_length_le (by simp)]

/-- C5 (corrected): repair is idempotent across a render round-trip only
on records in the flat safe fragment whose rendering contains neither a
comma-closer artefact (`,` + whitespace + `\x7d` or `]`) nor a fenced
block: for such a record, rendering with `json.dumps` and repairing again
with `clean_and_parse_json` returns exactly the same record.  (The
unrestricted claim is refuted by `repair_render_roundtrip_cex`: the
comma-eating `re.sub` rewrites string contents.) -/
theorem repair_idempotent_render {kvs : List (Str × Json)}
    (hfrag : fragObj (Json.obj kvs) = true)
    (hsub1 : subComma '\x7d' (jsonDumps (Json.obj kvs)) = jsonDumps (Json.obj kvs))
    (hsub2 : subComma ']' (jsonDumps (Json.obj kvs)) = jsonDumps (Json.obj kvs))
    (hfence : fenceSearch (jsonDumps (Json.obj kvs)) = none) :
    clean_and_parse_json (jsonDumps (Json.obj kvs)) = some (Json.obj kvs) := by
  have hfragK : fragKVs kvs = true := hfrag
  have hshape : jsonDumps (Json.obj kvs)
      = '\x7b' :: (joinSep (", ".toList) (jsonDumpsKV kvs) ++ ['\x7d']) := rfl
  rw [hshape] at hsub1 hsub2 hfence
  unfold clean_and_parse_json
  rw [hshape, pyStrip_brace_close]
  dsimp only
  rw [hfence]
  dsimp only
  rw [findSub_brace, rfindChar_brace_close]
  dsimp only
  rw [pySlice_brace_close, hsub1, hsub2, ← hshape, jsonLoads_dumps hfragK]

theorem repair_idempotent_render_witness :
    fragObj (Json.obj [("a".toList, Json.num 1)]) = true
    ∧ clean_and_parse_json (jsonDumps (Json.obj [("a".toList, Json.num 1)]))
        = some (Json.obj [("a".toList, Json.num 1)]) :=
  ⟨by decide, repair_idempotent_render (by decide) (by decide) (by decide) (by decide)⟩

/-- C5 counterexample: the record parsed from the literal text
`\x7b"a": ",,\x7dx"\x7d` has value `,\x7dx`; rendering it back with
`json.dumps` and repairing again yields the different value `\x7dx`,
because the comma-eating `re.sub` fires inside the string literal.  So
repair is not idempotent across a render round-trip. -/
theorem repair_render_roundtrip_cex :
    clean_and_parse_json ("\x7b\"a\": \",,\x7dx\"\x7d".toList)
        = some (Json.obj [("a".toList, Json.str (",\x7dx".toList))])
    ∧ clean_and_parse_json (jsonDumps (Json.obj [("a".toList, Json.str (",\x7dx".toList))]))
        = some (Json.obj [("a".toList, Json.str ("\x7dx".toList))])
    ∧ ¬ (",\x7dx".toList : Str) = ("\x7dx".toList : Str) :=
  ⟨rfl, rfl, by decide⟩
